import Mathlib

/-!
# errgrouptest: coordinated shutdown of an HTTP server and a SIGINT listener

A shallow embedding of `src/main/main.go`.  The program runs two goroutines
under an `errgroup.Group`; they are modelled as program counters over a shared
state, and an execution is a list of events (a schedule), each event being one
atomic action of one goroutine or of the environment.
-/

namespace ErrGroupTest

/-! ## Error values -/

/-- The error values that flow through `main.go`. -/
inductive GoError where
  /-- The error `http.ErrServerClosed`, what `ListenAndServe` returns after `server.Close()`. -/
  | serverClosed
  /-- any other error returned by `ListenAndServe` (for instance a failed bind). -/
  | fault (msg : String)
  /-- The error `fmt.Errorf("server end, err = [%+v]", err)` of line 62. -/
  | serverEnd (inner : GoError)
  /-- The error `errors.New("signal stop")` of line 86. -/
  | signalStop
  /-- The error `ctx.Err()` once the group context is cancelled, line 75. -/
  | ctxCanceled
  deriving DecidableEq

/-- The text of an error (`Error()`). -/
def GoError.text : GoError → String
  | .serverClosed => "http: Server closed"
  | .fault msg => msg
  | .serverEnd inner => "server end, err = [" ++ inner.text ++ "]"
  | .signalStop => "signal stop"
  | .ctxCanceled => "context canceled"

/-! ## Channels -/

/-- A Go channel of unit-like values: capacity, number of buffered values, closed flag. -/
structure Chan where
  cap : Nat
  len : Nat
  closed : Bool
  deriving DecidableEq

/-- The channel `stop := make(chan struct{}, 1)` of line 47. -/
def stopChan : Chan := { cap := 1, len := 0, closed := false }

/-- The buffer capacity of `c := make(chan os.Signal)` of line 46. -/
def sigChanCap : Nat := 0

/-- The non-blocking receive `select { case <-ch: ... default: }`: it succeeds when a
value is buffered or the channel is closed. -/
def Chan.tryRecv (ch : Chan) : Bool × Chan :=
  if 0 < ch.len then (true, { ch with len := ch.len - 1 })
  else if ch.closed then (true, ch)
  else (false, ch)

/-- The outcome of a send statement `ch <- v` when no receiver is waiting. -/
inductive SendResult where
  | sent (ch : Chan)
  | blocked
  | panics
  deriving DecidableEq

/-- The send `ch <- v` with no waiting receiver. -/
def Chan.send (ch : Chan) : SendResult :=
  if ch.closed then .panics
  else if ch.len < ch.cap then .sent { ch with len := ch.len + 1 }
  else .blocked

/-- The statement `close(ch)`: `none` is the panic of closing a closed channel. -/
def Chan.close (ch : Chan) : Option Chan :=
  if ch.closed then none else some { ch with closed := true }

/-! ## The server goroutine's decision (lines 52-64) -/

/-- The body of the server goroutine after `err := server.ListenAndServe()`:
the returned error (`none` is `nil`) and the stop channel after the poll. -/
def serverWorker (err : Option GoError) (stop : Chan) : Option GoError × Chan :=
  match err with
  | some e =>
    match stop.tryRecv with
    | (true, stop') => (none, stop')
    | (false, stop') => (some (.serverEnd e), stop')
  | none => (none, stop)

/-! ## The join coordinator (`errgroup.Group`) -/

/-- Modelled from the spec: the join coordinator `errgroup.Group` of
`golang.org/x/sync`, which is not under `src/`.  It keeps the first reported
non-nil error, the cancellation state of the derived context and the number of
workers that have not finished. -/
structure Group where
  err : Option GoError
  ctxDone : Bool
  running : Nat
  deriving DecidableEq

/-- Modelled from the spec: the group after `errgroup.WithContext` and two `g.Go` calls. -/
def Group.start : Group := { err := none, ctxDone := false, running := 2 }

/-- Modelled from the spec: a worker of the group finishes with result `r`
(section 4.1: a non-nil error cancels the context and the first reported error
is retained, later errors are discarded). -/
def Group.finish (g : Group) (r : Option GoError) : Group :=
  match r, g.err with
  | some e, none => { err := some e, ctxDone := true, running := g.running - 1 }
  | _, _ => { g with running := g.running - 1 }

/-- Modelled from the spec: `g.Wait()`: blocks (`none`) until all workers have
finished, then returns the retained error. -/
def Group.wait (g : Group) : Option (Option GoError) :=
  if g.running = 0 then some g.err else none

/-! ## Program state -/

/-- Program counter of the server goroutine (lines 50-65). -/
inductive SrvPc where
  /-- before the call of `server.ListenAndServe()`. -/
  | start
  /-- inside `ListenAndServe`, listener bound and accepting. -/
  | serving
  /-- after `ListenAndServe` has returned `err`, the poll of `stop` is next. -/
  | returned
  /-- the function has returned, the group has not recorded it yet. -/
  | exited
  /-- the group has recorded the result. -/
  | done
  deriving DecidableEq

/-- Program counter of the signal goroutine (lines 68-88). -/
inductive SigPc where
  /-- before `signal.Notify`. -/
  | start
  /-- about to evaluate the `select` of line 72. -/
  | atSelect
  /-- blocked in the `select`, no case ready. -/
  | parked
  /-- in the `ctx.Done()` case, before `return ctx.Err()`. -/
  | ctxBranch
  /-- in the interrupt case, before `stop <- struct{}{}` (line 80). -/
  | atSend
  /-- before `server.Close()` (line 81). -/
  | atClose
  /-- before `close(stop)` (line 82). -/
  | atCloseStop
  /-- before `signal.Stop(c)` (line 84). -/
  | atSigStop
  /-- the function has returned, the group has not recorded it yet. -/
  | exited
  /-- the group has recorded the result. -/
  | done
  deriving DecidableEq

/-- Program counter of `main`: blocked in `g.Wait()` or past it. -/
inductive MainPc where
  | waiting
  | ended
  deriving DecidableEq

/-- State of the listener of `server`. -/
inductive Listener where
  | unopened
  | opened
  | closed
  deriving DecidableEq

/-- The shared state of the program together with the goroutines' locals. -/
structure State where
  srv : SrvPc
  sig : SigPc
  main : MainPc
  /-- the local `err` of the server goroutine (line 52). -/
  err : Option GoError
  /-- the value returned by the server goroutine, valid from `exited` on. -/
  srvRet : Option GoError
  /-- the value returned by the signal goroutine, valid from `exited` on. -/
  sigRet : Option GoError
  listener : Listener
  /-- The call `server.Close()` has been made. -/
  inShutdown : Bool
  /-- number of transitions of the listener from open to closed so far. -/
  closeCount : Nat
  /-- The `/stop` handlers that are running and have not called `server.Close()` yet. -/
  handlers : Nat
  stop : Chan
  /-- number of signals buffered in `c`. -/
  sigBuf : Nat
  /-- The channel `c` is registered for SIGINT (`signal.Notify` done, `signal.Stop` not). -/
  registered : Bool
  group : Group
  /-- the value returned by `g.Wait()`, valid when `main` is `ended`. -/
  waitResult : Option GoError
  /-- number of times `g.Wait()` has returned. -/
  waitReturns : Nat
  /-- a goroutine has panicked (send on or close of a closed channel). -/
  panicked : Bool
  deriving DecidableEq

/-- The state when `main` reaches `g.Wait()` with both goroutines spawned and not yet run. -/
def init : State :=
  { srv := .start, sig := .start, main := .waiting,
    err := none, srvRet := none, sigRet := none,
    listener := .unopened, inShutdown := false, closeCount := 0, handlers := 0,
    stop := stopChan, sigBuf := 0, registered := false,
    group := Group.start, waitResult := none, waitReturns := 0, panicked := false }

/-- One atomic action of a goroutine or of the environment. -/
inductive Event where
  /-- server goroutine: call `ListenAndServe`; the bind succeeds, or the server is
  already closed and the call returns `ErrServerClosed`. -/
  | listen
  /-- environment: `ListenAndServe` fails with an error that is not `ErrServerClosed`
  (the bind fails, or the accept loop fails and `Serve` closes the listener on its
  way out); this does not happen once the server is closed. -/
  | fault (msg : String)
  /-- server goroutine: `ListenAndServe` returns `ErrServerClosed` after a close. -/
  | srvReturn
  /-- server goroutine: lines 53-64, the poll of `stop` and the return. -/
  | poll
  /-- the group records the server goroutine's result. -/
  | srvDone
  /-- environment: a `/stop` request is dispatched to its handler. -/
  | stopReq
  /-- a `/stop` handler executes `server.Close()` (line 42). -/
  | stopClose
  /-- signal goroutine: `signal.Notify(c, syscall.SIGINT)` (line 69). -/
  | notify
  /-- signal goroutine: the `select` takes the ready `ctx.Done()` case. -/
  | selectCtx
  /-- signal goroutine: the `select` takes a signal buffered in `c`. -/
  | selectSig
  /-- signal goroutine: no case is ready, the goroutine blocks in the `select`. -/
  | park
  /-- signal goroutine: `return ctx.Err()` (line 75). -/
  | ctxReturn
  /-- signal goroutine: `stop <- struct{}{}` (line 80). -/
  | sendStop
  /-- signal goroutine: `server.Close()` (line 81). -/
  | sigClose
  /-- signal goroutine: `close(stop)` (line 82). -/
  | closeStop
  /-- signal goroutine: `signal.Stop(c)` and `return errors.New("signal stop")`. -/
  | sigStop
  /-- the group records the signal goroutine's result. -/
  | sigDone
  /-- environment: SIGINT is delivered to the process while `c` is registered: it is
  handed to the goroutine blocked in the `select`, else buffered if `c` has room,
  else dropped (the send of package `signal` does not block).  A SIGINT outside
  the registration ends the process and is not an event of the program. -/
  | sigint
  /-- main: `g.Wait()` returns (line 91). -/
  | wait
  deriving DecidableEq

/-- The events that are steps of the program itself (not of the environment). -/
def progEvents : List Event :=
  [.listen, .srvReturn, .poll, .srvDone, .stopClose, .notify, .selectCtx, .selectSig,
   .park, .ctxReturn, .sendStop, .sigClose, .closeStop, .sigStop, .sigDone, .wait]

/-- The effect of `server.Close()`: the server is shut down and an open listener is
closed; on a listener that is not open nothing else changes. -/
def serverClose (s : State) : State :=
  match s.listener with
  | .opened => { s with inShutdown := true, listener := .closed, closeCount := s.closeCount + 1 }
  | _ => { s with inShutdown := true }

/-- A worker's result is recorded by the group; a first non-nil error cancels the
context, which wakes the signal goroutine if it is blocked in its `select`. -/
def record (s : State) (r : Option GoError) : State :=
  let g := s.group.finish r
  { s with group := g,
           sig := if g.ctxDone = true ∧ s.sig = .parked then .ctxBranch else s.sig }

/-- The effect of an event on a running program: `none` when the event is not
enabled in the state. -/
def fire (s : State) (e : Event) : Option State :=
  match e with
  | .listen =>
    match s.srv with
    | .start =>
      if s.inShutdown = true then some { s with srv := .returned, err := some .serverClosed }
      else some { s with srv := .serving, listener := .opened }
    | _ => none
  | .fault msg =>
    if s.inShutdown = true then none else
    match s.srv with
    | .start => some { s with srv := .returned, err := some (.fault msg) }
    | .serving =>
      some { s with srv := .returned, err := some (.fault msg),
                    listener := .closed, closeCount := s.closeCount + 1 }
    | _ => none
  | .srvReturn =>
    match s.srv with
    | .serving =>
      if s.inShutdown = true then some { s with srv := .returned, err := some .serverClosed }
      else none
    | _ => none
  | .poll =>
    match s.srv with
    | .returned =>
      some { s with srv := .exited, srvRet := (serverWorker s.err s.stop).1,
                    stop := (serverWorker s.err s.stop).2 }
    | _ => none
  | .srvDone =>
    match s.srv with
    | .exited => some { record s s.srvRet with srv := .done }
    | _ => none
  | .stopReq =>
    match s.listener with
    | .opened => some { s with handlers := s.handlers + 1 }
    | _ => none
  | .stopClose =>
    if 0 < s.handlers then some (serverClose { s with handlers := s.handlers - 1 }) else none
  | .notify =>
    match s.sig with
    | .start => some { s with sig := .atSelect, registered := true }
    | _ => none
  | .selectCtx =>
    match s.sig with
    | .atSelect => if s.group.ctxDone = true then some { s with sig := .ctxBranch } else none
    | _ => none
  | .selectSig =>
    match s.sig with
    | .atSelect =>
      if 0 < s.sigBuf then some { s with sig := .atSend, sigBuf := s.sigBuf - 1 } else none
    | _ => none
  | .park =>
    match s.sig with
    | .atSelect =>
      if s.group.ctxDone = true ∨ 0 < s.sigBuf then none else some { s with sig := .parked }
    | _ => none
  | .ctxReturn =>
    match s.sig with
    | .ctxBranch => some { s with sig := .exited, sigRet := some .ctxCanceled }
    | _ => none
  | .sendStop =>
    match s.sig with
    | .atSend =>
      match s.stop.send with
      | .sent ch => some { s with sig := .atClose, stop := ch }
      | .blocked => none
      | .panics => some { s with panicked := true }
    | _ => none
  | .sigClose =>
    match s.sig with
    | .atClose => some (serverClose { s with sig := .atCloseStop })
    | _ => none
  | .closeStop =>
    match s.sig with
    | .atCloseStop =>
      match s.stop.close with
      | some ch => some { s with sig := .atSigStop, stop := ch }
      | none => some { s with panicked := true }
    | _ => none
  | .sigStop =>
    match s.sig with
    | .atSigStop => some { s with sig := .exited, sigRet := some .signalStop, registered := false }
    | _ => none
  | .sigDone =>
    match s.sig with
    | .exited => some { record s s.sigRet with sig := .done }
    | _ => none
  | .sigint =>
    if s.registered = true then
      match s.sig with
      | .parked => some { s with sig := .atSend }
      | _ => if s.sigBuf < sigChanCap then some { s with sigBuf := s.sigBuf + 1 } else some s
    else none
  | .wait =>
    match s.group.wait with
    | some r =>
      some { s with main := .ended, waitResult := r, waitReturns := s.waitReturns + 1,
                    group := { s.group with ctxDone := true } }
    | none => none

/-- The transition function: nothing is enabled after a panic or after `main` has
returned (the process is over), otherwise the event fires. -/
def step (s : State) (e : Event) : Option State :=
  if s.panicked = true ∨ s.main = .ended then none else fire s e

/-- Run a schedule from a state; `none` when some event of it is not enabled. -/
def run (s : State) : List Event → Option State
  | [] => some s
  | e :: es => (step s e).bind (fun s' => run s' es)

/-- No step of the program is enabled: the program can only move on an event of
the environment, or not at all. -/
def quiescent (s : State) : Prop :=
  ∀ e ∈ progEvents, step s e = none

instance (s : State) : Decidable (quiescent s) := by
  unfold quiescent; infer_instance

/-- Steps left on the server goroutine's path. -/
def SrvPc.rank : SrvPc → Nat
  | .start => 4
  | .serving => 3
  | .returned => 2
  | .exited => 1
  | .done => 0

/-- Steps left on the signal goroutine's longest path. -/
def SigPc.rank : SigPc → Nat
  | .start => 9
  | .atSelect => 8
  | .parked => 7
  | .atSend => 6
  | .atClose => 5
  | .atCloseStop => 4
  | .atSigStop => 3
  | .ctxBranch => 2
  | .exited => 1
  | .done => 0

/-- A bound on the number of program steps that can still be taken. -/
def rank (s : State) : Nat :=
  s.srv.rank + s.sig.rank + s.handlers + (if s.main = .waiting then 1 else 0)

/-- The signal goroutine has received the interrupt (it is in, or has left through,
the interrupt case of its `select`). -/
def tookInterrupt (s : State) : Prop :=
  s.sig = .atSend ∨ s.sig = .atClose ∨ s.sig = .atCloseStop ∨ s.sig = .atSigStop ∨
    ((s.sig = .exited ∨ s.sig = .done) ∧ s.sigRet = some .signalStop)

instance (s : State) : Decidable (tookInterrupt s) := by
  unfold tookInterrupt; infer_instance

/-- Which trigger path issued a `server.Close()`. -/
inductive Closer where
  | http
  | signal
  deriving DecidableEq

/-- The path of the first `server.Close()` of a schedule, if any. -/
def firstCloser : List Event → Option Closer
  | [] => none
  | .stopClose :: _ => some .http
  | .sigClose :: _ => some .signal
  | _ :: es => firstCloser es

/-! ## Invariants of the reachable states -/

/-- The signal goroutine has executed `stop <- struct{}{}`. -/
def sentMarker (s : State) : Prop :=
  s.sig = .atClose ∨ s.sig = .atCloseStop ∨ s.sig = .atSigStop ∨
    ((s.sig = .exited ∨ s.sig = .done) ∧ s.sigRet = some .signalStop)

/-- The signal goroutine has executed `close(stop)`. -/
def closedMarker (s : State) : Prop :=
  s.sig = .atSigStop ∨ ((s.sig = .exited ∨ s.sig = .done) ∧ s.sigRet = some .signalStop)

/-- The signal goroutine has executed its `server.Close()`. -/
def sigClosed (s : State) : Prop :=
  s.sig = .atCloseStop ∨ s.sig = .atSigStop ∨
    ((s.sig = .exited ∨ s.sig = .done) ∧ s.sigRet = some .signalStop)

/-- The signal goroutine is in, or has left through, the `ctx.Done()` case. -/
def tookCtx (s : State) : Prop :=
  s.sig = .ctxBranch ∨ ((s.sig = .exited ∨ s.sig = .done) ∧ s.sigRet = some .ctxCanceled)

/-- Invariant of the stop channel and of the signal goroutine. -/
structure InvA (s : State) : Prop where
  noPanic : s.panicked = false
  stopCap : s.stop.cap = 1
  stopClosed : s.stop.closed = true ↔ closedMarker s
  sigVal : (s.sig = .exited ∨ s.sig = .done) →
    s.sigRet = some .ctxCanceled ∨ s.sigRet = some .signalStop
  bufEmpty : s.sigBuf = 0
  sigShut : sigClosed s → s.inShutdown = true
  stopEmpty : ¬ sentMarker s → s.stop.len = 0
  stopLen : s.stop.len ≤ 1

/-- Invariant of the server goroutine's locals with respect to the stop marker. -/
structure InvB (s : State) : Prop where
  markerReady : sentMarker s → (s.srv = .start ∨ s.srv = .serving ∨ s.srv = .returned) →
    s.stop.len = 1 ∨ s.stop.closed = true
  srvNil : (s.srv = .exited ∨ s.srv = .done) → s.srvRet = none → sentMarker s
  srvVal : (s.srv = .exited ∨ s.srv = .done) →
    ∃ e, s.err = some e ∧ (s.srvRet = none ∨ s.srvRet = some (.serverEnd e))
  errNone : (s.srv = .start ∨ s.srv = .serving) → s.err = none
  errSome : s.srv = .returned → s.err ≠ none
  errClosed : s.err = some .serverClosed → s.inShutdown = true

/-- Invariant of the listener. -/
structure InvC (s : State) : Prop where
  lisOpen : s.listener = .opened ↔ (s.srv = .serving ∧ s.inShutdown = false)
  lisStart : s.srv = .start → s.listener = .unopened
  lisCount : s.closeCount = if s.listener = .closed then 1 else 0

/-- Invariant of the group and of `main`. -/
structure InvD (s : State) : Prop where
  ctxIff : s.group.ctxDone = true ↔ s.group.err ≠ none
  errFrom : s.group.err = none ∨ (s.srv = .done ∧ s.group.err = s.srvRet) ∨
    (s.sig = .done ∧ s.sigRet = some .signalStop ∧ s.group.err = some .signalStop)
  srvDoneErr : s.srv = .done → s.srvRet ≠ none → s.group.ctxDone = true
  sigDoneErr : s.sig = .done → s.group.ctxDone = true
  ctxTaken : tookCtx s → s.group.ctxDone = true
  notParked : s.group.ctxDone = true → s.sig ≠ .parked
  running : s.group.running =
    (if s.srv = .done then 0 else 1) + (if s.sig = .done then 0 else 1)
  mainEnded : s.main = .ended →
    s.srv = .done ∧ s.sig = .done ∧ s.waitReturns = 1 ∧ s.waitResult = s.group.err
  mainWaiting : s.main = .waiting → s.waitReturns = 0

/-- The invariant of the reachable states. -/
structure Inv (s : State) : Prop where
  a : InvA s
  b : InvB s
  c : InvC s
  d : InvD s

/-- What the schedule says about the `/stop` handlers in the state it reaches. -/
def StopTrace (es : List Event) (s : State) : Prop :=
  (0 < s.handlers → s.listener ≠ .unopened) ∧
  (Event.stopReq ∈ es → (0 < s.handlers ∨ s.inShutdown = true) ∧ s.listener ≠ .unopened) ∧
  (Event.stopClose ∈ es → s.inShutdown = true ∧ s.listener ≠ .unopened)

/-- What the first `server.Close()` of the schedule says about the state it reaches. -/
def CloseTrace (es : List Event) (s : State) : Prop :=
  (firstCloser es = none → s.inShutdown = false) ∧
  (firstCloser es = some .signal → sigClosed s ∧
    (s.err = some .serverClosed → (s.srv = .exited ∨ s.srv = .done) → s.srvRet = none))

/-- What holds along a run without `/stop` request and without listener fault. -/
structure Quiet (s : State) : Prop where
  noHandler : s.handlers = 0
  shutBySig : s.inShutdown = true → sigClosed s
  errVal : s.err = none ∨ s.err = some .serverClosed
  srvClean : (s.srv = .exited ∨ s.srv = .done) → s.srvRet = none
  errSig : s.group.err ≠ none → s.sig = .done
  noCtx : ¬ tookCtx s

/-- The event is neither a `/stop` request nor a listener fault. -/
def Event.quiet : Event → Prop
  | .stopReq => False
  | .fault _ => False
  | _ => True

/-! ## The order of the reports to the group -/

/-- The first non-nil error of a list of results, in the order of the list. -/
def firstErr : List (Option GoError) → Option GoError
  | [] => none
  | some e :: _ => some e
  | none :: rs => firstErr rs

/-- The results the two goroutines report to the group along a schedule, in the
order of the reports, when the server goroutine returns `a` and the signal
goroutine returns `b`. -/
def reportsOf (a b : Option GoError) : List Event → List (Option GoError)
  | [] => []
  | .srvDone :: es => a :: reportsOf a b es
  | .sigDone :: es => b :: reportsOf a b es
  | _ :: es => reportsOf a b es

/-- The results reported to the group along the schedule that reaches `s`. -/
def reports (es : List Event) (s : State) : List (Option GoError) :=
  reportsOf s.srvRet s.sigRet es

/-- What the schedule says about the group in the state it reaches: a goroutine
that is not recorded has not reported, the retained error is the first non-nil
report, and the reports are the results of the recorded goroutines. -/
structure ReportTrace (es : List Event) (s : State) : Prop where
  srvNot : s.srv ≠ .done → Event.srvDone ∉ es
  sigNot : s.sig ≠ .done → Event.sigDone ∉ es
  retained : s.group.err = firstErr (reports es s)
  noReport : s.srv ≠ .done → s.sig ≠ .done → reports es s = []
  onlySrv : s.srv = .done → s.sig ≠ .done → reports es s = [s.srvRet]
  onlySig : s.srv ≠ .done → s.sig = .done → reports es s = [s.sigRet]
  both : s.srv = .done → s.sig = .done →
    reports es s = [s.srvRet, s.sigRet] ∨ reports es s = [s.sigRet, s.srvRet]

/-! ## Completion -/

/-- The program runs to completion from `s` with result `R`: by steps of its own it
can reach the return of `g.Wait()`; every run of its own steps is at most `rank s`
long and can only come to rest after `g.Wait()` has returned; and `R` holds
whenever `g.Wait()` has returned. -/
def Completes (s : State) (R : State → Prop) : Prop :=
  (∃ fs t, (∀ e ∈ fs, e ∈ progEvents) ∧ run s fs = some t ∧ t.main = .ended ∧ R t) ∧
  (∀ fs t, (∀ e ∈ fs, e ∈ progEvents) → run s fs = some t →
    fs.length + rank t ≤ rank s ∧ (quiescent t → t.main = .ended) ∧
      (t.main = .ended → R t))

/-! ## Concrete runs -/

/-- The state a schedule reaches from the initial state (the initial state itself
when the schedule cannot run). -/
def reached (es : List Event) : State := (run init es).getD init

/-- A run in which the interrupt closes a serving server. -/
def signalRun : List Event :=
  [.listen, .notify, .park, .sigint, .sendStop, .sigClose, .closeStop, .sigStop, .sigDone,
    .srvReturn, .poll, .srvDone, .wait]

/-- A run in which a `/stop` request closes the server and no interrupt arrives. -/
def httpRun : List Event :=
  [.listen, .notify, .park, .stopReq, .stopClose, .srvReturn, .poll, .srvDone, .ctxReturn,
    .sigDone, .wait]

/-- A run in which the bind fails and no interrupt arrives. -/
def faultRun : List Event :=
  [.fault "bind", .notify, .park, .poll, .srvDone, .ctxReturn, .sigDone, .wait]

/-- A run in which the bind fails and the server's error is reported before the
signal goroutine's. -/
def faultSignalRun : List Event :=
  [.fault "bind", .notify, .park, .sigint, .poll, .srvDone, .sendStop, .sigClose,
    .closeStop, .sigStop, .sigDone, .wait]

/-- A run with two `/stop` requests and the interrupt. -/
def doubleStopRun : List Event :=
  [.listen, .notify, .park, .stopReq, .stopReq, .sigint, .stopClose, .sendStop, .sigClose,
    .stopClose, .closeStop]

/-- A run that ends when a `/stop` request and the interrupt have both just arrived. -/
def raceRun : List Event :=
  [.listen, .notify, .park, .stopReq, .sigint]

/-! ## Preservation of the invariants -/

theorem closedMarker_sent {s : State} (h : closedMarker s) : sentMarker s := by
  rcases h with h | h
  · exact Or.inr (Or.inr (Or.inl h))
  · exact Or.inr (Or.inr (Or.inr h))

theorem sigClosed_sent {s : State} (h : sigClosed s) : sentMarker s := Or.inr h

theorem step_some {s s' : State} {e : Event} (hs : step s e = some s') :
    s.panicked = false ∧ s.main = .waiting ∧ fire s e = some s' := by
  unfold step at hs
  split at hs
  · cases hs
  · rename_i h
    rw [not_or] at h
    refine ⟨by simpa using h.1, ?_, hs⟩
    cases hm : s.main
    · rfl
    · exact absurd hm h.2

theorem serverWorker_cap (err : Option GoError) (stop : Chan) :
    (serverWorker err stop).2.cap = stop.cap := by
  unfold serverWorker Chan.tryRecv
  cases err
  · rfl
  · simp only
    split_ifs <;> rfl

theorem serverWorker_closed (err : Option GoError) (stop : Chan) :
    (serverWorker err stop).2.closed = stop.closed := by
  unfold serverWorker Chan.tryRecv
  cases err
  · rfl
  · simp only
    split_ifs <;> rfl

theorem serverWorker_len (err : Option GoError) (stop : Chan) :
    (serverWorker err stop).2.len = if err = none then stop.len else stop.len - 1 := by
  cases err with
  | none => simp [serverWorker]
  | some e =>
    by_cases h1 : 0 < stop.len
    · simp [serverWorker, Chan.tryRecv, h1]
    · by_cases h2 : stop.closed = true
      · simp [serverWorker, Chan.tryRecv, h1, h2]; omega
      · simp [serverWorker, Chan.tryRecv, h1, h2]; omega

theorem serverWorker_ret (e : GoError) (stop : Chan) :
    (serverWorker (some e) stop).1 =
      if 0 < stop.len ∨ stop.closed = true then none else some (.serverEnd e) := by
  unfold serverWorker Chan.tryRecv
  simp only
  split_ifs <;> simp_all

theorem send_sent {ch ch' : Chan} (h : ch.send = .sent ch') :
    ch.closed = false ∧ ch.len < ch.cap ∧ ch' = { ch with len := ch.len + 1 } := by
  unfold Chan.send at h
  split_ifs at h with h1 h2
  · cases h; exact ⟨by simpa using h1, h2, rfl⟩

theorem send_panics {ch : Chan} (h : ch.send = .panics) : ch.closed = true := by
  unfold Chan.send at h
  split_ifs at h with h1 h2
  · exact h1

theorem close_some {ch ch' : Chan} (h : ch.close = some ch') :
    ch.closed = false ∧ ch' = { ch with closed := true } := by
  unfold Chan.close at h
  split_ifs at h with h1
  · cases h; exact ⟨by simpa using h1, rfl⟩

theorem close_none {ch : Chan} (h : ch.close = none) : ch.closed = true := by
  unfold Chan.close at h
  split_ifs at h with h1
  · exact h1

theorem fire_sendStop {s s' : State} (h : InvA s) (hf : fire s .sendStop = some s') :
    s.sig = .atSend ∧ s' = { s with sig := .atClose, stop := { s.stop with len := 1 } } := by
  simp only [fire] at hf
  split at hf
  · rename_i hsig
    have hc : s.stop.closed = false := by
      cases hcl : s.stop.closed
      · rfl
      · have := h.stopClosed.1 hcl
        simp [closedMarker, hsig] at this
    have hl : s.stop.len = 0 := h.stopEmpty (by simp [sentMarker, hsig])
    have hsend : s.stop.send = .sent { s.stop with len := 1 } := by
      simp [Chan.send, hc, hl, h.stopCap]
    rw [hsend] at hf
    cases hf
    exact ⟨hsig, rfl⟩
  · cases hf

theorem fire_closeStop {s s' : State} (h : InvA s) (hf : fire s .closeStop = some s') :
    s.sig = .atCloseStop ∧
      s' = { s with sig := .atSigStop, stop := { s.stop with closed := true } } := by
  simp only [fire] at hf
  split at hf
  · rename_i hsig
    have hc : s.stop.closed = false := by
      cases hcl : s.stop.closed
      · rfl
      · have := h.stopClosed.1 hcl
        simp [closedMarker, hsig] at this
    have hclose : s.stop.close = some { s.stop with closed := true } := by
      simp [Chan.close, hc]
    rw [hclose] at hf
    cases hf
    exact ⟨hsig, rfl⟩
  · cases hf

theorem fire_poll {s s' : State} (hf : fire s .poll = some s') :
    s.srv = .returned ∧
      s' = { s with srv := .exited, srvRet := (serverWorker s.err s.stop).1,
                    stop := (serverWorker s.err s.stop).2 } := by
  simp only [fire] at hf
  split at hf
  · rename_i hsrv
    cases hf
    exact ⟨hsrv, rfl⟩
  · cases hf

theorem invA_step {s s' : State} {e : Event} (h : InvA s) (hs : step s e = some s') :
    InvA s' := by
  obtain ⟨hp, hm, hf⟩ := step_some hs
  clear hs
  cases e
  case poll =>
    obtain ⟨hsrv, rfl⟩ := fire_poll hf
    clear hf
    obtain ⟨a1, a2, a3, a4, a5, a6, a7, a8⟩ := h
    have hl := serverWorker_len s.err s.stop
    constructor <;>
      simp only [sentMarker, closedMarker, sigClosed, serverWorker_cap, serverWorker_closed] <;>
      first
      | assumption
      | (intro hh; have := a7 hh; split_ifs at hl <;> omega)
      | (split_ifs at hl <;> omega)
  case sendStop =>
    obtain ⟨hsig, rfl⟩ := fire_sendStop h hf
    clear hf
    obtain ⟨a1, a2, a3, a4, a5, a6, a7, a8⟩ := h
    constructor <;> first
      | assumption
      | simp_all [sentMarker, closedMarker, sigClosed]
  case closeStop =>
    obtain ⟨hsig, rfl⟩ := fire_closeStop h hf
    clear hf
    obtain ⟨a1, a2, a3, a4, a5, a6, a7, a8⟩ := h
    constructor <;> first
      | assumption
      | simp_all [sentMarker, closedMarker, sigClosed]
  all_goals
    obtain ⟨a1, a2, a3, a4, a5, a6, a7, a8⟩ := h
    simp only [fire, record, serverClose, sigChanCap] at hf
    (repeat' split at hf) <;> cases hf <;>
    constructor <;> first
      | assumption
      | simp_all [sentMarker, closedMarker, sigClosed]

theorem invB_step {s s' : State} {e : Event} (hA : InvA s) (h : InvB s)
    (hs : step s e = some s') : InvB s' := by
  obtain ⟨hp, hm, hf⟩ := step_some hs
  clear hs
  cases e
  case poll =>
    obtain ⟨hsrv, rfl⟩ := fire_poll hf
    clear hf
    obtain ⟨b1, b2, b3, b4, b5, b6⟩ := h
    obtain ⟨e, he⟩ : ∃ e, s.err = some e := by
      cases hh : s.err
      · exact absurd hh (b5 hsrv)
      · exact ⟨_, rfl⟩
    have hr := serverWorker_ret e s.stop
    rw [← he] at hr
    refine ⟨?_, ?_, ?_, ?_, ?_, b6⟩
    · intro _ hh
      simp at hh
    · intro _ hnil
      simp only [hr] at hnil
      by_contra hns
      have h0 := hA.stopEmpty hns
      have hc : ¬ s.stop.closed = true :=
        fun hc => hns (closedMarker_sent (hA.stopClosed.1 hc))
      simp [h0, hc] at hnil
    · intro _
      refine ⟨e, he, ?_⟩
      simp only [hr]
      split_ifs <;> simp
    · intro hh
      simp at hh
    · intro hh
      simp at hh
  case sendStop =>
    obtain ⟨hsig, rfl⟩ := fire_sendStop hA hf
    clear hf
    obtain ⟨b1, b2, b3, b4, b5, b6⟩ := h
    constructor <;> first
      | assumption
      | simp_all [sentMarker, closedMarker, sigClosed]
  case closeStop =>
    obtain ⟨hsig, rfl⟩ := fire_closeStop hA hf
    clear hf
    obtain ⟨b1, b2, b3, b4, b5, b6⟩ := h
    constructor <;> first
      | assumption
      | simp_all [sentMarker, closedMarker, sigClosed]
  all_goals
    obtain ⟨b1, b2, b3, b4, b5, b6⟩ := h
    simp only [fire, record, serverClose, sigChanCap] at hf
    (repeat' split at hf) <;> cases hf <;>
    constructor <;> first
      | assumption
      | simp_all [sentMarker, closedMarker, sigClosed]

theorem invC_step {s s' : State} {e : Event} (hA : InvA s) (h : InvC s)
    (hs : step s e = some s') : InvC s' := by
  obtain ⟨hp, hm, hf⟩ := step_some hs
  clear hs
  cases e
  case poll =>
    obtain ⟨hsrv, rfl⟩ := fire_poll hf
    clear hf
    obtain ⟨c1, c2, c3⟩ := h
    constructor <;> first
      | assumption
      | simp_all
  case sendStop =>
    obtain ⟨hsig, rfl⟩ := fire_sendStop hA hf
    clear hf
    exact ⟨h.1, h.2, h.3⟩
  case closeStop =>
    obtain ⟨hsig, rfl⟩ := fire_closeStop hA hf
    clear hf
    exact ⟨h.1, h.2, h.3⟩
  all_goals
    obtain ⟨c1, c2, c3⟩ := h
    simp only [fire, record, serverClose, sigChanCap] at hf
    (repeat' split at hf) <;> cases hf <;>
    constructor <;> first
      | assumption
      | simp_all

theorem finish_running (g : Group) (r : Option GoError) :
    (g.finish r).running = g.running - 1 := by
  unfold Group.finish
  split <;> rfl

theorem finish_err (g : Group) (r : Option GoError) :
    (g.finish r).err = if g.err = none then r else g.err := by
  cases hr : r <;> cases hg : g.err <;> simp [Group.finish, hr, hg]

theorem finish_ctx (g : Group) (r : Option GoError) :
    ((g.finish r).ctxDone = true) ↔ (g.ctxDone = true ∨ (g.err = none ∧ r ≠ none)) := by
  cases hr : r <;> cases hg : g.err <;> simp [Group.finish, hr, hg]

theorem fire_srvDone {s s' : State} (hf : fire s .srvDone = some s') :
    s.srv = .exited ∧ s' = { record s s.srvRet with srv := .done } := by
  simp only [fire] at hf
  split at hf
  · rename_i hsrv
    cases hf
    exact ⟨hsrv, rfl⟩
  · cases hf

theorem fire_sigDone {s s' : State} (hf : fire s .sigDone = some s') :
    s.sig = .exited ∧ s' = { record s s.sigRet with sig := .done } := by
  simp only [fire] at hf
  split at hf
  · rename_i hsig
    cases hf
    exact ⟨hsig, rfl⟩
  · cases hf

set_option maxHeartbeats 1000000 in
theorem invD_step {s s' : State} {e : Event} (hA : InvA s) (h : InvD s)
    (hs : step s e = some s') : InvD s' := by
  obtain ⟨hp, hm, hf⟩ := step_some hs
  clear hs
  cases e
  case poll =>
    obtain ⟨hsrv, rfl⟩ := fire_poll hf
    clear hf
    obtain ⟨d1, d2, d3, d4, d5, d6, d7, d8, d9⟩ := h
    constructor <;> first
      | assumption
      | simp_all [tookCtx]
  case sendStop =>
    obtain ⟨hsig, rfl⟩ := fire_sendStop hA hf
    clear hf
    obtain ⟨d1, d2, d3, d4, d5, d6, d7, d8, d9⟩ := h
    constructor <;> first
      | assumption
      | simp_all [tookCtx]
  case closeStop =>
    obtain ⟨hsig, rfl⟩ := fire_closeStop hA hf
    clear hf
    obtain ⟨d1, d2, d3, d4, d5, d6, d7, d8, d9⟩ := h
    constructor <;> first
      | assumption
      | simp_all [tookCtx]
  case srvDone =>
    obtain ⟨hsrv, rfl⟩ := fire_srvDone hf
    clear hf hA
    obtain ⟨d1, d2, d3, d4, d5, d6, d7, d8, d9⟩ := h
    simp only [tookCtx] at d5
    by_cases hpk : s.sig = .parked <;>
    cases hr : s.srvRet <;> cases hg : s.group.err <;>
      simp only [hpk, hsrv, hr, hg, ne_eq, not_true_eq_false, not_false_eq_true, iff_false,
        iff_true, reduceCtorEq, false_and, and_false, false_or, or_false, false_implies,
        true_implies, implies_true, ite_false, ite_true, true_and, and_true, imp_false,
        Bool.not_eq_true] at d1 d2 d3 d4 d5 d6 d7 <;>
      constructor <;>
      simp only [record, Group.finish, hr, hg, tookCtx, hpk, d1, ne_eq, not_true_eq_false,
        not_false_eq_true, iff_false, iff_true, reduceCtorEq, false_and, and_false, false_or,
        or_false, false_implies, true_implies, implies_true, ite_false, ite_true, true_and,
        and_true, imp_false, Bool.not_eq_true, or_true, true_or, and_self, Bool.false_eq_true] <;>
      first
        | assumption
        | omega
        | simp_all
  case sigDone =>
    obtain ⟨hsig, rfl⟩ := fire_sigDone hf
    clear hf
    obtain ⟨d1, d2, d3, d4, d5, d6, d7, d8, d9⟩ := h
    simp only [tookCtx] at d5
    have a4 := hA.sigVal (Or.inl hsig)
    clear hA
    rcases a4 with hr | hr <;> cases hg : s.group.err <;>
      simp only [hsig, hr, hg, ne_eq, not_true_eq_false, not_false_eq_true, iff_false,
        iff_true, reduceCtorEq, false_and, and_false, false_or, or_false, false_implies,
        true_implies, implies_true, ite_false, ite_true, true_and, and_true, imp_false,
        Bool.not_eq_true, or_true, true_or, Option.some.injEq] at d1 d2 d3 d4 d5 d6 d7 <;>
      constructor <;>
      simp only [record, Group.finish, hr, hg, hsig, tookCtx, d1, ne_eq, not_true_eq_false,
        not_false_eq_true, iff_false, iff_true, reduceCtorEq, false_and, and_false, false_or,
        or_false, false_implies, true_implies, implies_true, ite_false, ite_true, true_and,
        and_true, imp_false, Bool.not_eq_true, or_true, true_or, and_self, Bool.false_eq_true] <;>
      first
        | assumption
        | omega
        | simp_all
  case wait =>
    obtain ⟨d1, d2, d3, d4, d5, d6, d7, d8, d9⟩ := h
    simp only [fire, Group.wait] at hf
    (repeat' split at hf) <;> cases hf
    rename_i h0 _ hrun
    split_ifs at hrun with h0
    have hsrv : s.srv = .done := by
      by_contra hh; simp [hh] at d7; omega
    have hsig : s.sig = .done := by
      by_contra hh; simp [hh] at d7; omega
    have hctx := d4 hsig
    constructor <;> first
      | assumption
      | simp_all [tookCtx]
  all_goals
    obtain ⟨d1, d2, d3, d4, d5, d6, d7, d8, d9⟩ := h
    simp only [fire, serverClose, sigChanCap] at hf
    (repeat' split at hf) <;> cases hf <;>
    constructor <;> first
      | assumption
      | simp_all [tookCtx]

/-! ## Reachable states, progress and termination -/

theorem inv_init : Inv init := by
  refine ⟨?_, ?_, ?_, ?_⟩ <;> constructor <;>
    simp [init, stopChan, Group.start, sentMarker, closedMarker, sigClosed, tookCtx]

theorem inv_step {s s' : State} {e : Event} (h : Inv s) (hs : step s e = some s') : Inv s' :=
  ⟨invA_step h.a hs, invB_step h.a h.b hs, invC_step h.a h.c hs, invD_step h.a h.d hs⟩

theorem run_snoc (s : State) (es : List Event) (e : Event) :
    run s (es ++ [e]) = (run s es).bind (fun s' => step s' e) := by
  induction es generalizing s with
  | nil => simp [run]
  | cons x xs ih =>
    simp only [List.cons_append, run]
    cases hx : step s x with
    | none => simp
    | some t => simp [ih]

/-- Induction over the schedules that run from the initial state. -/
theorem reach_ind (P : List Event → State → Prop) (h0 : P [] init)
    (hstep : ∀ es s e s', run init es = some s → P es s → step s e = some s' →
      P (es ++ [e]) s') :
    ∀ es s, run init es = some s → P es s := by
  intro es
  induction es using List.reverseRecOn with
  | nil =>
    intro s hs
    simp only [run, Option.some.injEq] at hs
    exact hs ▸ h0
  | append_singleton xs x ih =>
    intro s hs
    rw [run_snoc] at hs
    cases hx : run init xs with
    | none => simp [hx] at hs
    | some t =>
      simp only [hx, Option.some_bind] at hs
      exact hstep xs t x s hx (ih t hx) hs

theorem inv_reach {es : List Event} {s : State} (hr : run init es = some s) : Inv s :=
  reach_ind (fun _ s => Inv s) inv_init (fun _ _ _ _ _ h hs => inv_step h hs) es s hr

theorem step_eq_fire {s : State} (hp : s.panicked = false) (hm : s.main = .waiting)
    (e : Event) : step s e = fire s e := by
  simp [step, hp, hm]

theorem step_ended {s : State} (hm : s.main = .ended) (e : Event) : step s e = none := by
  simp [step, hm]

/-- A reachable state in which no step of the program is enabled while `main` is
still waiting is the idle state: the server is serving, nothing has asked it to
stop, and the signal goroutine is blocked in its `select`. -/
theorem quiescent_idle {s : State} (h : Inv s) (hm : s.main = .waiting) (hq : quiescent s) :
    s.srv = .serving ∧ s.inShutdown = false ∧ s.handlers = 0 ∧ s.sig = .parked := by
  have hp := h.a.noPanic
  have hq' : ∀ e ∈ progEvents, fire s e = none := fun e he => by
    rw [← step_eq_fire hp hm]; exact hq e he
  have h1 : s.srv ≠ .start := by
    intro hh
    have := hq' .listen (by simp [progEvents])
    simp only [fire, hh] at this
    split_ifs at this
  have h2 : s.srv ≠ .returned := by
    intro hh
    have := hq' .poll (by simp [progEvents])
    simp [fire, hh] at this
  have h3 : s.srv ≠ .exited := by
    intro hh
    have := hq' .srvDone (by simp [progEvents])
    simp [fire, hh] at this
  have h4 : s.srv = .serving → s.inShutdown = false := by
    intro hh
    have := hq' .srvReturn (by simp [progEvents])
    simpa [fire, hh] using this
  have h5 : s.handlers = 0 := by
    have := hq' .stopClose (by simp [progEvents])
    simpa [fire] using this
  have g1 : s.sig ≠ .start := by
    intro hh
    have := hq' .notify (by simp [progEvents])
    simp [fire, hh] at this
  have g2 : s.sig ≠ .atSelect := by
    intro hh
    have t1 := hq' .selectCtx (by simp [progEvents])
    have t2 := hq' .park (by simp [progEvents])
    simp only [fire, hh, h.a.bufEmpty, lt_self_iff_false, or_false] at t1 t2
    split_ifs at t1 t2
  have g3 : s.sig ≠ .ctxBranch := by
    intro hh
    have := hq' .ctxReturn (by simp [progEvents])
    simp [fire, hh] at this
  have g4 : s.sig ≠ .atSend := by
    intro hh
    have := hq' .sendStop (by simp [progEvents])
    cases hf : fire s .sendStop with
    | some t => rw [hf] at this; cases this
    | none =>
      have hc : s.stop.closed = false := by
        cases hcl : s.stop.closed
        · rfl
        · have := h.a.stopClosed.1 hcl
          simp [closedMarker, hh] at this
      have hl : s.stop.len = 0 := h.a.stopEmpty (by simp [sentMarker, hh])
      simp [fire, hh, Chan.send, hc, hl, h.a.stopCap] at hf
  have g5 : s.sig ≠ .atClose := by
    intro hh
    have := hq' .sigClose (by simp [progEvents])
    simp [fire, hh] at this
  have g6 : s.sig ≠ .atCloseStop := by
    intro hh
    have := hq' .closeStop (by simp [progEvents])
    simp only [fire, hh] at this
    split at this <;> cases this
  have g7 : s.sig ≠ .atSigStop := by
    intro hh
    have := hq' .sigStop (by simp [progEvents])
    simp [fire, hh] at this
  have g8 : s.sig ≠ .exited := by
    intro hh
    have := hq' .sigDone (by simp [progEvents])
    simp [fire, hh] at this
  have w : ¬ (s.srv = .done ∧ s.sig = .done) := by
    rintro ⟨hs1, hs2⟩
    have := hq' .wait (by simp [progEvents])
    have hr := h.d.running
    simp [hs1, hs2] at hr
    simp [fire, Group.wait, hr] at this
  have hsrv : s.srv = .serving ∨ s.srv = .done := by
    cases hh : s.srv <;> simp_all
  have hsig : s.sig = .parked ∨ s.sig = .done := by
    cases hh : s.sig <;> simp_all
  rcases hsrv with hsrv | hsrv
  · rcases hsig with hsig | hsig
    · exact ⟨hsrv, h4 hsrv, h5, hsig⟩
    · exfalso
      rcases h.a.sigVal (Or.inr hsig) with hr | hr
      · have hc := h.d.ctxTaken (Or.inr ⟨Or.inr hsig, hr⟩)
        have hne := h.d.ctxIff.1 hc
        rcases h.d.errFrom with he | he | he
        · exact hne he
        · rw [hsrv] at he; cases he.1
        · rw [hr] at he; cases he.2.1
      · have := h.a.sigShut (Or.inr (Or.inr ⟨Or.inr hsig, hr⟩))
        rw [h4 hsrv] at this
        cases this
  · rcases hsig with hsig | hsig
    · exfalso
      by_cases hr : s.srvRet = none
      · have := h.b.srvNil (Or.inr hsrv) hr
        simp [sentMarker, hsig] at this
      · exact h.d.notParked (h.d.srvDoneErr hsrv hr) hsig
    · exact absurd ⟨hsrv, hsig⟩ w

/-- Every step of the program uses up rank: a run takes at most `rank s` program
steps from `s`. -/
theorem rank_step {s s' : State} {e : Event} (h : InvA s) (he : e ∈ progEvents)
    (hs : step s e = some s') : rank s' < rank s := by
  obtain ⟨hp, hm, hf⟩ := step_some hs
  clear hs
  cases e
  case fault => simp [progEvents] at he
  case stopReq => simp [progEvents] at he
  case sigint => simp [progEvents] at he
  case poll =>
    obtain ⟨hsrv, rfl⟩ := fire_poll hf
    simp [rank, hsrv, SrvPc.rank]
  case sendStop =>
    obtain ⟨hsig, rfl⟩ := fire_sendStop h hf
    simp [rank, hsig, SigPc.rank]
  case closeStop =>
    obtain ⟨hsig, rfl⟩ := fire_closeStop h hf
    simp [rank, hsig, SigPc.rank]
  case srvDone =>
    obtain ⟨hsrv, rfl⟩ := fire_srvDone hf
    simp only [rank, record, hsrv, SrvPc.rank]
    split_ifs with h1 <;> simp [h1, SigPc.rank]
  case sigDone =>
    obtain ⟨hsig, rfl⟩ := fire_sigDone hf
    simp [rank, record, hsig, SigPc.rank]
  all_goals
    simp only [fire, serverClose, Group.wait] at hf
    (repeat' split at hf) <;> cases hf <;>
      simp_all [rank, SrvPc.rank, SigPc.rank]

set_option maxHeartbeats 1000000 in
theorem stopTrace_step {es : List Event} {s s' : State} {e : Event} (hA : InvA s)
    (h : StopTrace es s) (hs : step s e = some s') : StopTrace (es ++ [e]) s' := by
  obtain ⟨hp, hm, hf⟩ := step_some hs
  clear hs
  obtain ⟨t1, t2, t3⟩ := h
  cases e
  case poll =>
    obtain ⟨hsrv, rfl⟩ := fire_poll hf
    clear hf
    refine ⟨t1, ?_, ?_⟩ <;> simpa using by assumption
  case sendStop =>
    obtain ⟨hsig, rfl⟩ := fire_sendStop hA hf
    clear hf
    refine ⟨t1, ?_, ?_⟩ <;> simpa using by assumption
  case closeStop =>
    obtain ⟨hsig, rfl⟩ := fire_closeStop hA hf
    clear hf
    refine ⟨t1, ?_, ?_⟩ <;> simpa using by assumption
  all_goals
    simp only [fire, record, serverClose, Group.wait] at hf
    (repeat' split at hf) <;> cases hf <;>
      refine ⟨?_, ?_, ?_⟩ <;>
      (try simp only [List.mem_append, List.mem_singleton, reduceCtorEq, or_false, or_true,
        true_implies]) <;>
      first
        | assumption
        | simp_all

theorem firstCloser_snoc (es : List Event) (e : Event) :
    firstCloser (es ++ [e]) =
      match firstCloser es with
      | some c => some c
      | none => firstCloser [e] := by
  induction es with
  | nil => simp [firstCloser]
  | cons x xs ih =>
    cases x <;> simp [firstCloser, ih]

theorem poll_nil {s : State} (hB : InvB s) (hsrv : s.srv = .returned)
    (hsent : sentMarker s) : (serverWorker s.err s.stop).1 = none := by
  obtain ⟨e, he⟩ : ∃ e, s.err = some e := by
    cases hh : s.err
    · exact absurd hh (hB.errSome hsrv)
    · exact ⟨_, rfl⟩
  rw [he, serverWorker_ret]
  have := hB.markerReady hsent (Or.inr (Or.inr hsrv))
  rcases this with h | h
  · simp [h]
  · simp [h]

set_option maxHeartbeats 1000000 in
theorem closeTrace_step {es : List Event} {s s' : State} {e : Event} (hA : InvA s)
    (hB : InvB s) (h : CloseTrace es s) (hs : step s e = some s') :
    CloseTrace (es ++ [e]) s' := by
  obtain ⟨hp, hm, hf⟩ := step_some hs
  clear hs
  obtain ⟨t1, t2⟩ := h
  have b6 := hB.errClosed
  have b4 := hB.errNone
  simp only [CloseTrace, firstCloser_snoc]
  cases hfc : firstCloser es with
  | some c =>
    cases c with
    | http => simp
    | signal =>
      simp only [reduceCtorEq, false_implies, true_implies, true_and]
      obtain ⟨t3, t4⟩ := t2 hfc
      clear t1 t2
      cases e
      case poll =>
        obtain ⟨hsrv, rfl⟩ := fire_poll hf
        clear hf
        refine ⟨t3, fun _ _ => poll_nil hB hsrv (sigClosed_sent t3)⟩
      case sendStop =>
        obtain ⟨hsig, rfl⟩ := fire_sendStop hA hf
        simp [sigClosed, hsig] at t3
      case closeStop =>
        obtain ⟨hsig, rfl⟩ := fire_closeStop hA hf
        clear hf
        exact ⟨by simp [sigClosed], t4⟩
      all_goals
        simp only [sigClosed] at t3
        simp only [fire, record, serverClose, Group.wait] at hf
        (repeat' split at hf) <;> cases hf <;>
          refine ⟨?_, ?_⟩ <;>
          first
            | assumption
            | simp_all [sigClosed]
  | none =>
    have t0 := t1 hfc
    clear t1 t2
    cases e
    case poll =>
      obtain ⟨hsrv, rfl⟩ := fire_poll hf
      simpa [firstCloser] using t0
    case sendStop =>
      obtain ⟨hsig, rfl⟩ := fire_sendStop hA hf
      simpa [firstCloser] using t0
    case closeStop =>
      obtain ⟨hsig, rfl⟩ := fire_closeStop hA hf
      simpa [firstCloser] using t0
    all_goals
      simp only [fire, record, serverClose, Group.wait] at hf
      (repeat' split at hf) <;> cases hf <;>
        simp_all [firstCloser, sigClosed]

set_option maxHeartbeats 1000000 in
theorem quiet_step {s s' : State} {e : Event} (hA : InvA s) (hB : InvB s) (hD : InvD s)
    (h : Quiet s) (he : e.quiet) (hs : step s e = some s') : Quiet s' := by
  obtain ⟨hp, hm, hf⟩ := step_some hs
  clear hs
  obtain ⟨q1, q2, q3, q4, q5, q6⟩ := h
  have d1 := hD.ctxIff
  cases e
  case stopReq => exact absurd he id
  case fault => exact absurd he id
  case poll =>
    obtain ⟨hsrv, rfl⟩ := fire_poll hf
    clear hf
    refine ⟨q1, q2, q3, ?_, q5, q6⟩
    intro _
    apply poll_nil hB hsrv
    rcases q3 with h0 | h0
    · exact absurd h0 (hB.errSome hsrv)
    · exact sigClosed_sent (q2 (hB.errClosed h0))
  case sendStop =>
    obtain ⟨hsig, rfl⟩ := fire_sendStop hA hf
    clear hf
    simp only [sigClosed, tookCtx, hsig] at q2 q5 q6
    constructor <;> first
      | assumption
      | simp_all [sigClosed, tookCtx]
  case closeStop =>
    obtain ⟨hsig, rfl⟩ := fire_closeStop hA hf
    clear hf
    simp only [sigClosed, tookCtx, hsig] at q2 q5 q6
    constructor <;> first
      | assumption
      | simp_all [sigClosed, tookCtx]
  case srvDone =>
    obtain ⟨hsrv, rfl⟩ := fire_srvDone hf
    clear hf
    have hr := q4 (Or.inl hsrv)
    have hfin : s.group.finish s.srvRet = { s.group with running := s.group.running - 1 } := by
      simp [Group.finish, hr]
    have hnp : ¬ (s.group.ctxDone = true ∧ s.sig = .parked) := by
      rintro ⟨h1, h2⟩
      have := q5 (d1.1 h1)
      rw [h2] at this
      cases this
    simp only [sigClosed, tookCtx] at q2 q5 q6
    constructor <;> simp only [record, hfin, hnp, if_false, sigClosed, tookCtx] <;>
      first
      | assumption
      | simp_all
  case sigDone =>
    obtain ⟨hsig, rfl⟩ := fire_sigDone hf
    clear hf
    have hsv := hA.sigVal (Or.inl hsig)
    simp only [sigClosed, tookCtx, hsig] at q2 q5 q6
    constructor <;> simp only [record, sigClosed, tookCtx] <;>
      first
      | assumption
      | simp_all
  all_goals
    simp only [sigClosed, tookCtx] at q2 q6
    simp only [fire, serverClose, Group.wait] at hf
    (repeat' split at hf) <;> cases hf <;>
      constructor <;>
      first
        | assumption
        | simp_all [sigClosed, tookCtx]

theorem stopTrace_reach {es : List Event} {s : State} (hr : run init es = some s) :
    StopTrace es s :=
  reach_ind StopTrace (by simp [StopTrace, init])
    (fun _ _ _ _ hrun h hs => stopTrace_step (inv_reach hrun).a h hs) es s hr

theorem closeTrace_reach {es : List Event} {s : State} (hr : run init es = some s) :
    CloseTrace es s :=
  reach_ind CloseTrace (by simp [CloseTrace, init, firstCloser])
    (fun _ _ _ _ hrun h hs => closeTrace_step (inv_reach hrun).a (inv_reach hrun).b h hs) es s hr

theorem quiet_init : Quiet init := by
  constructor <;> simp [init, Group.start, sigClosed, tookCtx]

theorem quiet_reach {es : List Event} {s : State} (hr : run init es = some s)
    (hq : ∀ e ∈ es, e.quiet) : Quiet s := by
  have := reach_ind (fun es s => (∀ e ∈ es, e.quiet) → Quiet s) (fun _ => quiet_init)
    (fun es s e s' hrun h hs hq' => by
      have hi := inv_reach hrun
      exact quiet_step hi.a hi.b hi.d (h (fun x hx => hq' x (by simp [hx])))
        (hq' e (by simp)) hs) es s hr
  exact this hq

theorem quiet_of_not_mem {es : List Event} (hns : Event.stopReq ∉ es)
    (hnf : ∀ m, Event.fault m ∉ es) : ∀ e ∈ es, e.quiet := by
  intro e he
  cases e <;> simp only [Event.quiet]
  · exact hnf _ he
  · exact hns he

/-- Without a listener fault the error of `ListenAndServe` can only be `ErrServerClosed`. -/
theorem err_of_no_fault {es : List Event} {s : State} (hr : run init es = some s)
    (hnf : ∀ m, Event.fault m ∉ es) : s.err = none ∨ s.err = some .serverClosed := by
  have := reach_ind (fun es s => (∀ m, Event.fault m ∉ es) →
      (s.err = none ∨ s.err = some .serverClosed)) (fun _ => Or.inl rfl)
    (fun es s e s' hrun h hs hq' => by
      have h0 := h (fun m hm => hq' m (by simp [hm]))
      have he : ∀ m, e ≠ Event.fault m := fun m hm => hq' m (by simp [hm])
      obtain ⟨hp, hm, hf⟩ := step_some hs
      clear hs hq' h
      cases e
      case fault m => exact absurd rfl (he m)
      case poll =>
        obtain ⟨_, rfl⟩ := fire_poll hf
        exact h0
      case sendStop =>
        obtain ⟨_, rfl⟩ := fire_sendStop (inv_reach hrun).a hf
        exact h0
      case closeStop =>
        obtain ⟨_, rfl⟩ := fire_closeStop (inv_reach hrun).a hf
        exact h0
      all_goals
        simp only [fire, record, serverClose, Group.wait] at hf
        (repeat' split at hf) <;> cases hf <;> first | exact h0 | simp) es s hr
  exact this hnf

/-- In a reachable quiescent state in which a stop has been asked for or the
server has failed, `main` is past `g.Wait()`. -/
theorem quiescent_ended {s : State} (h : Inv s) (hq : quiescent s)
    (hne : s.srv ≠ .serving ∨ s.inShutdown = true ∨ 0 < s.handlers ∨ s.sig ≠ .parked) :
    s.main = .ended := by
  cases hm : s.main
  · obtain ⟨h1, h2, h3, h4⟩ := quiescent_idle h hm hq
    rcases hne with h' | h' | h' | h'
    · exact absurd h1 h'
    · rw [h2] at h'; cases h'
    · omega
    · exact absurd h4 h'
  · rfl

theorem sent_took {s : State} (h : sentMarker s) : tookInterrupt s := Or.inr h

theorem run_append (s : State) (es fs : List Event) :
    run s (es ++ fs) = (run s es).bind (fun t => run t fs) := by
  induction es generalizing s with
  | nil => simp [run]
  | cons x xs ih =>
    simp only [List.cons_append, run]
    cases hx : step s x with
    | none => simp
    | some t => simp [ih]

theorem inv_run {s t : State} {fs : List Event} (h : Inv s) (hr : run s fs = some t) :
    Inv t := by
  induction fs generalizing s with
  | nil =>
    simp only [run, Option.some.injEq] at hr
    exact hr ▸ h
  | cons x xs ih =>
    simp only [run] at hr
    cases hx : step s x with
    | none => simp [hx] at hr
    | some u =>
      simp only [hx, Option.some_bind] at hr
      exact ih (inv_step h hx) hr

/-- A run of program steps from a reachable state is at most `rank` steps long. -/
theorem prog_run_bounded {s t : State} {fs : List Event} (h : Inv s)
    (hp : ∀ e ∈ fs, e ∈ progEvents) (hr : run s fs = some t) :
    fs.length + rank t ≤ rank s := by
  induction fs generalizing s with
  | nil =>
    simp only [run, Option.some.injEq] at hr
    simp [hr]
  | cons x xs ih =>
    simp only [run] at hr
    cases hx : step s x with
    | none => simp [hx] at hr
    | some u =>
      simp only [hx, Option.some_bind] at hr
      have h1 := rank_step h.a (hp x (by simp)) hx
      have h2 := ih (inv_step h hx) (fun e he => hp e (by simp [he])) hr
      simp only [List.length_cons]
      omega

/-- A step of the program neither receives an interrupt nor forgets one. -/
theorem took_prog {s t : State} {e : Event} (hA : InvA s) (he : e ∈ progEvents)
    (hs : step s e = some t) : tookInterrupt t ↔ tookInterrupt s := by
  obtain ⟨hp, hm, hf⟩ := step_some hs
  clear hs
  have hb := hA.bufEmpty
  cases e
  case fault => simp [progEvents] at he
  case stopReq => simp [progEvents] at he
  case sigint => simp [progEvents] at he
  case poll =>
    obtain ⟨_, rfl⟩ := fire_poll hf
    rfl
  case sendStop =>
    obtain ⟨hsig, rfl⟩ := fire_sendStop hA hf
    simp [tookInterrupt, hsig]
  case closeStop =>
    obtain ⟨hsig, rfl⟩ := fire_closeStop hA hf
    simp [tookInterrupt, hsig]
  case srvDone =>
    obtain ⟨hsrv, rfl⟩ := fire_srvDone hf
    simp only [tookInterrupt, record]
    split_ifs with h1
    · simp [h1.2]
    · rfl
  case sigDone =>
    obtain ⟨hsig, rfl⟩ := fire_sigDone hf
    simp [tookInterrupt, record, hsig]
  all_goals
    simp only [fire, serverClose, Group.wait] at hf
    (repeat' split at hf) <;> cases hf <;> simp_all [tookInterrupt]

theorem took_run {s t : State} {fs : List Event} (h : Inv s)
    (hp : ∀ e ∈ fs, e ∈ progEvents) (hr : run s fs = some t) :
    tookInterrupt t ↔ tookInterrupt s := by
  induction fs generalizing s with
  | nil =>
    simp only [run, Option.some.injEq] at hr
    rw [hr]
  | cons x xs ih =>
    simp only [run] at hr
    cases hx : step s x with
    | none => simp [hx] at hr
    | some u =>
      simp only [hx, Option.some_bind] at hr
      rw [ih (inv_step h hx) (fun e he => hp e (by simp [he])) hr]
      exact took_prog h.a (hp x (by simp)) hx

theorem not_quiescent {s : State} (h : ¬ quiescent s) :
    ∃ e ∈ progEvents, ∃ t, step s e = some t := by
  unfold quiescent at h
  push_neg at h
  obtain ⟨e, he, hne⟩ := h
  obtain ⟨t, ht⟩ := Option.ne_none_iff_exists'.1 hne
  exact ⟨e, he, t, ht⟩

/-- If the program can only come to rest once `main` has returned, then it can run
to that point by steps of its own. -/
theorem exists_completion (n : Nat) : ∀ s : State, rank s ≤ n → Inv s →
    (∀ fs t, (∀ e ∈ fs, e ∈ progEvents) → run s fs = some t → quiescent t →
      t.main = .ended) →
    ∃ fs t, (∀ e ∈ fs, e ∈ progEvents) ∧ run s fs = some t ∧ t.main = .ended := by
  induction n with
  | zero =>
    intro s hn hi hq
    by_cases hqs : quiescent s
    · exact ⟨[], s, by simp, rfl, hq [] s (by simp) rfl hqs⟩
    · obtain ⟨e, he, t, ht⟩ := not_quiescent hqs
      have := rank_step hi.a he ht
      omega
  | succ n ih =>
    intro s hn hi hq
    by_cases hqs : quiescent s
    · exact ⟨[], s, by simp, rfl, hq [] s (by simp) rfl hqs⟩
    · obtain ⟨e, he, u, hu⟩ := not_quiescent hqs
      have hlt := rank_step hi.a he hu
      obtain ⟨fs, t, hfs, hrun, hend⟩ := ih u (by omega) (inv_step hi hu)
        (fun fs t hfs hrun hqt => hq (e :: fs) t
          (fun x hx => by
            rcases List.mem_cons.1 hx with h | h
            · exact h ▸ he
            · exact hfs x h)
          (by simp [run, hu, hrun]) hqt)
      exact ⟨e :: fs, t,
        fun x hx => by
          rcases List.mem_cons.1 hx with h | h
          · exact h ▸ he
          · exact hfs x h,
        by simp [run, hu, hrun], hend⟩

theorem prog_not_env {fs : List Event} (hp : ∀ e ∈ fs, e ∈ progEvents) :
    Event.stopReq ∉ fs ∧ (∀ m, Event.fault m ∉ fs) ∧ Event.sigint ∉ fs := by
  refine ⟨fun h => ?_, fun m h => ?_, fun h => ?_⟩ <;>
    simpa [progEvents] using hp _ h

theorem reach_append {es fs : List Event} {s t : State} (hr : run init es = some s)
    (hf : run s fs = some t) : run init (es ++ fs) = some t := by
  rw [run_append, hr]
  exact hf

theorem completes_of {s : State} {R : State → Prop} (hi : Inv s)
    (hq : ∀ fs t, (∀ e ∈ fs, e ∈ progEvents) → run s fs = some t → quiescent t →
      t.main = .ended)
    (hR : ∀ fs t, (∀ e ∈ fs, e ∈ progEvents) → run s fs = some t → t.main = .ended → R t) :
    Completes s R := by
  constructor
  · obtain ⟨fs, t, hfs, hrun, hend⟩ := exists_completion (rank s) s le_rfl hi hq
    exact ⟨fs, t, hfs, hrun, hend, hR fs t hfs hrun hend⟩
  · intro fs t hfs hrun
    exact ⟨prog_run_bounded hi hfs hrun, hq fs t hfs hrun, hR fs t hfs hrun⟩

theorem firstCloser_append (es fs : List Event) :
    firstCloser (es ++ fs) =
      match firstCloser es with
      | some c => some c
      | none => firstCloser fs := by
  induction es with
  | nil => simp [firstCloser]
  | cons x xs ih =>
    cases x <;> simp [firstCloser, ih]

/-- Once `ListenAndServe` has returned, the local `err` does not change. -/
theorem err_step {s t : State} {e : Event} {x : GoError} (hA : InvA s) (hB : InvB s)
    (hx : s.err = some x) (hs : step s e = some t) : t.err = some x := by
  obtain ⟨hp, hm, hf⟩ := step_some hs
  clear hs
  have b4 := hB.errNone
  cases e
  case poll =>
    obtain ⟨_, rfl⟩ := fire_poll hf
    exact hx
  case sendStop =>
    obtain ⟨_, rfl⟩ := fire_sendStop hA hf
    exact hx
  case closeStop =>
    obtain ⟨_, rfl⟩ := fire_closeStop hA hf
    exact hx
  all_goals
    simp only [fire, record, serverClose, Group.wait] at hf
    (repeat' split at hf) <;> cases hf <;> simp_all

theorem err_run {s t : State} {fs : List Event} {x : GoError} (h : Inv s)
    (hx : s.err = some x) (hr : run s fs = some t) : t.err = some x := by
  induction fs generalizing s with
  | nil =>
    simp only [run, Option.some.injEq] at hr
    rw [← hr]; exact hx
  | cons y ys ih =>
    simp only [run] at hr
    cases hy : step s y with
    | none => simp [hy] at hr
    | some u =>
      simp only [hy, Option.some_bind] at hr
      exact ih (inv_step h hy) (err_step h.a h.b hx hy) hr

/-! ## The reports to the group -/

theorem firstErr_snoc (l : List (Option GoError)) (r : Option GoError) :
    firstErr (l ++ [r]) = if firstErr l = none then r else firstErr l := by
  induction l with
  | nil => cases r <;> simp [firstErr]
  | cons x xs ih =>
    cases x with
    | none => simpa [firstErr] using ih
    | some e => simp [firstErr]

theorem reportsOf_append (a b : Option GoError) (es fs : List Event) :
    reportsOf a b (es ++ fs) = reportsOf a b es ++ reportsOf a b fs := by
  induction es with
  | nil => simp [reportsOf]
  | cons x xs ih => cases x <;> simp [reportsOf, ih]

theorem reportsOf_srv {a a' : Option GoError} (b : Option GoError) {es : List Event}
    (h : Event.srvDone ∉ es) : reportsOf a b es = reportsOf a' b es := by
  induction es with
  | nil => rfl
  | cons x xs ih =>
    have hx : Event.srvDone ∉ xs := fun hm => h (List.mem_cons_of_mem _ hm)
    cases x <;> simp [reportsOf, ih hx]
    exact absurd (List.mem_cons_self _ _) h

theorem reportsOf_sig (a : Option GoError) {b b' : Option GoError} {es : List Event}
    (h : Event.sigDone ∉ es) : reportsOf a b es = reportsOf a b' es := by
  induction es with
  | nil => rfl
  | cons x xs ih =>
    have hx : Event.sigDone ∉ xs := fun hm => h (List.mem_cons_of_mem _ hm)
    cases x <;> simp [reportsOf, ih hx]
    exact absurd (List.mem_cons_self _ _) h

theorem reportsOf_other (a b : Option GoError) {e : Event} (h1 : e ≠ .srvDone)
    (h2 : e ≠ .sigDone) : reportsOf a b [e] = [] := by
  cases e <;> simp [reportsOf] at h1 h2 ⊢

/-- A step that is not a report leaves the group's retained error, the recorded
goroutines and their results as they are. -/
theorem frame_step {s t : State} {e : Event} (hA : InvA s) (hs : step s e = some t)
    (h1 : e ≠ .srvDone) (h2 : e ≠ .sigDone) :
    t.group.err = s.group.err ∧ (t.srv = .done ↔ s.srv = .done) ∧
      (t.sig = .done ↔ s.sig = .done) ∧ (s.srv = .done → t.srvRet = s.srvRet) ∧
      (s.sig = .done → t.sigRet = s.sigRet) := by
  obtain ⟨hp, hm, hf⟩ := step_some hs
  clear hs
  cases e
  case srvDone => exact absurd rfl h1
  case sigDone => exact absurd rfl h2
  case poll =>
    obtain ⟨hsrv, rfl⟩ := fire_poll hf
    simp [hsrv]
  case sendStop =>
    obtain ⟨hsig, rfl⟩ := fire_sendStop hA hf
    simp [hsig]
  case closeStop =>
    obtain ⟨hsig, rfl⟩ := fire_closeStop hA hf
    simp [hsig]
  all_goals
    simp only [fire, serverClose, Group.wait] at hf
    (repeat' split at hf) <;> cases hf <;> simp_all

theorem record_sig_done (s : State) (r : Option GoError) :
    (record s r).sig = .done ↔ s.sig = .done := by
  simp only [record]
  split_ifs with h
  · simp [h.2]
  · rfl

theorem reportTrace_step {es : List Event} {s t : State} {e : Event} (hA : InvA s)
    (h : ReportTrace es s) (hs : step s e = some t) : ReportTrace (es ++ [e]) t := by
  by_cases h1 : e = .srvDone
  · subst h1
    obtain ⟨_, _, hf⟩ := step_some hs
    obtain ⟨hsrv, rfl⟩ := fire_srvDone hf
    have hnd : s.srv ≠ .done := by rw [hsrv]; simp
    have hrep : reports (es ++ [Event.srvDone]) { record s s.srvRet with srv := .done } =
        reports es s ++ [s.srvRet] := by
      simp [reports, reportsOf_append, reportsOf, record]
    have hsig := record_sig_done s s.srvRet
    refine ⟨fun hh => absurd rfl hh, ?_, ?_, fun hh => absurd rfl hh, ?_,
      fun hh => absurd rfl hh, ?_⟩
    · intro hh hm
      have hs' : s.sig ≠ .done := fun h' => hh (hsig.2 h')
      rcases List.mem_append.1 hm with hm | hm
      · exact h.sigNot hs' hm
      · simp at hm
    · rw [hrep, firstErr_snoc, ← h.retained]
      simp [record, finish_err]
    · intro _ hh
      have hs' : s.sig ≠ .done := fun h' => hh (hsig.2 h')
      rw [hrep, h.noReport hnd hs']
      simp [record]
    · intro _ hh
      have hs' : s.sig = .done := hsig.1 hh
      rw [hrep, h.onlySig hnd hs']
      exact Or.inr (by simp [record])
  · by_cases h2 : e = .sigDone
    · subst h2
      obtain ⟨_, _, hf⟩ := step_some hs
      obtain ⟨hsig, rfl⟩ := fire_sigDone hf
      have hnd : s.sig ≠ .done := by rw [hsig]; simp
      have hrep : reports (es ++ [Event.sigDone]) { record s s.sigRet with sig := .done } =
          reports es s ++ [s.sigRet] := by
        simp [reports, reportsOf_append, reportsOf, record]
      have hsrv : ({ record s s.sigRet with sig := .done } : State).srv = s.srv := by
        simp [record]
      refine ⟨?_, fun hh => absurd rfl hh, ?_, fun _ hh => absurd rfl hh,
        fun _ hh => absurd rfl hh, ?_, ?_⟩
      · intro hh hm
        rw [hsrv] at hh
        rcases List.mem_append.1 hm with hm | hm
        · exact h.srvNot hh hm
        · simp at hm
      · rw [hrep, firstErr_snoc, ← h.retained]
        simp [record, finish_err]
      · intro hh _
        rw [hsrv] at hh
        rw [hrep, h.noReport hh hnd]
        simp [record]
      · intro hh _
        rw [hsrv] at hh
        rw [hrep, h.onlySrv hh hnd]
        exact Or.inl (by simp [record])
    · obtain ⟨he, hsd, hgd, hsr, hgr⟩ := frame_step hA hs h1 h2
      have hrep : reports (es ++ [e]) t = reports es s := by
        simp only [reports, reportsOf_append, reportsOf_other _ _ h1 h2, List.append_nil]
        have e1 : reportsOf t.srvRet t.sigRet es = reportsOf s.srvRet t.sigRet es := by
          by_cases hd : s.srv = .done
          · rw [hsr hd]
          · exact reportsOf_srv _ (h.srvNot hd)
        have e2 : reportsOf s.srvRet t.sigRet es = reportsOf s.srvRet s.sigRet es := by
          by_cases hd : s.sig = .done
          · rw [hgr hd]
          · exact reportsOf_sig _ (h.sigNot hd)
        rw [e1, e2]
      have m1 : Event.srvDone ∉ [e] := by simpa using Ne.symm h1
      have m2 : Event.sigDone ∉ [e] := by simpa using Ne.symm h2
      refine ⟨?_, ?_, ?_, ?_, ?_, ?_, ?_⟩
      · intro hh hm
        rcases List.mem_append.1 hm with hm | hm
        · exact h.srvNot (fun h' => hh (hsd.2 h')) hm
        · exact m1 hm
      · intro hh hm
        rcases List.mem_append.1 hm with hm | hm
        · exact h.sigNot (fun h' => hh (hgd.2 h')) hm
        · exact m2 hm
      · rw [hrep, he]; exact h.retained
      · intro ha hb
        rw [hrep]
        exact h.noReport (fun h' => ha (hsd.2 h')) (fun h' => hb (hgd.2 h'))
      · intro ha hb
        rw [hrep, hsr (hsd.1 ha)]
        exact h.onlySrv (hsd.1 ha) (fun h' => hb (hgd.2 h'))
      · intro ha hb
        rw [hrep, hgr (hgd.1 hb)]
        exact h.onlySig (fun h' => ha (hsd.2 h')) (hgd.1 hb)
      · intro ha hb
        rw [hrep, hsr (hsd.1 ha), hgr (hgd.1 hb)]
        exact h.both (hsd.1 ha) (hgd.1 hb)

theorem reportTrace_reach {es : List Event} {s : State} (hr : run init es = some s) :
    ReportTrace es s :=
  reach_ind ReportTrace
    (by constructor <;> simp [init, Group.start, reports, reportsOf, firstErr])
    (fun _ _ _ _ hrun h hs => reportTrace_step (inv_reach hrun).a h hs) es s hr

theorem firstErr_pair (a b : Option GoError) :
    firstErr [a, b] = none ↔ a = none ∧ b = none := by
  cases a <;> cases b <;> simp [firstErr]

theorem firstErr_swap_none (a b : Option GoError) :
    firstErr [b, a] = none ↔ a = none ∧ b = none := by
  cases a <;> cases b <;> simp [firstErr]

/-! ## The claims -/

/-- C2. Server goroutine decision: for a non-nil error `e` of `ListenAndServe` the
goroutine returns nil exactly when the stop channel holds a pending value or is
closed at the poll, and otherwise the error with the text
"server end, err = [<e>]"; nothing but the stop marker enters the decision, and
the poll step of the program is this function. -/
theorem C2_server_decision (e : GoError) (stop : Chan) :
    (serverWorker (some e) stop).1 =
        (if 0 < stop.len ∨ stop.closed = true then none else some (.serverEnd e)) ∧
      (GoError.serverEnd e).text = "server end, err = [" ++ e.text ++ "]" ∧
      (∀ s s' : State, step s .poll = some s' →
        s.srv = .returned ∧ s'.srvRet = (serverWorker s.err s.stop).1) := by
  refine ⟨serverWorker_ret e stop, rfl, ?_⟩
  intro s s' hs
  obtain ⟨_, _, hf⟩ := step_some hs
  obtain ⟨hsrv, rfl⟩ := fire_poll hf
  exact ⟨hsrv, rfl⟩

/-- C1 (counterexample). The listener is closed through the `/stop` handler, which
does not touch the stop channel: `ListenAndServe` returns `ErrServerClosed` and the
server goroutine returns the non-nil error "server end, err = [http: Server closed]". -/
theorem C1_stop_handler_not_clean :
    firstCloser [.listen, .stopReq, .stopClose, .srvReturn, .poll] = some .http ∧
    (run init [.listen, .stopReq, .stopClose, .srvReturn, .poll]).map
        (fun s => (s.listener, s.err, s.srvRet)) =
      some (.closed, some .serverClosed, some (.serverEnd .serverClosed)) ∧
    (GoError.serverEnd .serverClosed).text = "server end, err = [http: Server closed]" := by
  refine ⟨rfl, rfl, by decide⟩

/-- C1 (amended). In every run whose first `server.Close()` is the one of the signal
goroutine's interrupt branch, the stop marker has been sent before it; whenever
`ListenAndServe` has returned `ErrServerClosed` the server goroutine's result is
nil, for every timing; and the program runs to completion, the server goroutine
having returned with that result. -/
theorem C1_signal_close_clean (es : List Event) (s : State) (hr : run init es = some s)
    (hfc : firstCloser es = some .signal) :
    sentMarker s ∧
    (s.err = some .serverClosed → (s.srv = .exited ∨ s.srv = .done) → s.srvRet = none) ∧
    Completes s (fun t => t.srv = .done ∧ (t.err = some .serverClosed → t.srvRet = none)) := by
  have hi := inv_reach hr
  obtain ⟨hsc, hres⟩ := (closeTrace_reach hr).2 hfc
  have key : ∀ fs t, run s fs = some t →
      sigClosed t ∧ (t.err = some .serverClosed → (t.srv = .exited ∨ t.srv = .done) →
        t.srvRet = none) := by
    intro fs t hrun
    exact (closeTrace_reach (reach_append hr hrun)).2 (by rw [firstCloser_append, hfc])
  refine ⟨sigClosed_sent hsc, hres, completes_of hi ?_ ?_⟩
  · intro fs t _ hrun hq
    have ht := inv_run hi hrun
    exact quiescent_ended ht hq (Or.inr (Or.inl (ht.a.sigShut (key fs t hrun).1)))
  · intro fs t _ hrun hend
    have hd := ((inv_run hi hrun).d.mainEnded hend).1
    exact ⟨hd, fun he => (key fs t hrun).2 he (Or.inr hd)⟩

/-- C3. Join result: `g.Wait()` blocks while a worker has not finished; once both
have, it returns the first non-nil result in the order of completion (a later
error is discarded), and nil only if both results are nil.  In the program each
goroutine's completion hands its own return value to the group, `main` is past
`g.Wait()` only when both goroutines have completed, and in every run, for
either order of completion, the value `g.Wait()` returns is the first non-nil
one of the two return values in that order, nil only if both are nil. -/
theorem C3_join_result (a b : Option GoError) (es : List Event) (s : State)
    (hr : run init es = some s) :
    Group.start.wait = none ∧ (Group.start.finish a).wait = none ∧
    ((Group.start.finish a).finish b).wait = some (firstErr [a, b]) ∧
    (firstErr [a, b] = none ↔ a = none ∧ b = none) ∧
    (∀ t, step s .srvDone = some t → t.group = s.group.finish s.srvRet) ∧
    (∀ t, step s .sigDone = some t → t.group = s.group.finish s.sigRet) ∧
    ((s.srv ≠ .done ∨ s.sig ≠ .done) → step s .wait = none) ∧
    s.group.err = firstErr (reports es s) ∧
    (s.main = .ended → s.srv = .done ∧ s.sig = .done ∧
      (reports es s = [s.srvRet, s.sigRet] ∨ reports es s = [s.sigRet, s.srvRet]) ∧
      s.waitResult = firstErr (reports es s) ∧
      (s.waitResult = none ↔ s.srvRet = none ∧ s.sigRet = none)) := by
  have hi := inv_reach hr
  have ht := reportTrace_reach hr
  refine ⟨rfl, ?_, ?_, firstErr_pair a b, ?_, ?_, ?_, ht.retained, ?_⟩
  · cases a <;> rfl
  · cases a <;> cases b <;> rfl
  · intro t hs
    obtain ⟨_, _, hf⟩ := step_some hs
    obtain ⟨_, rfl⟩ := fire_srvDone hf
    simp [record]
  · intro t hs
    obtain ⟨_, _, hf⟩ := step_some hs
    obtain ⟨_, rfl⟩ := fire_sigDone hf
    simp [record]
  · intro hne
    by_cases hm : s.main = .ended
    · exact step_ended hm _
    · have hw : s.main = .waiting := by
        cases h : s.main
        · rfl
        · exact absurd h hm
      rw [step_eq_fire hi.a.noPanic hw]
      have hrun := hi.d.running
      have : s.group.running ≠ 0 := by
        rcases hne with h | h <;> simp [h] at hrun <;> omega
      simp [fire, Group.wait, this]
  · intro hm
    obtain ⟨h1, h2, _, h4⟩ := hi.d.mainEnded hm
    have hw : s.waitResult = firstErr (reports es s) := by rw [h4, ht.retained]
    refine ⟨h1, h2, ht.both h1 h2, hw, ?_⟩
    rw [hw]
    rcases ht.both h1 h2 with h | h
    · rw [h]; exact firstErr_pair _ _
    · rw [h]; exact firstErr_swap_none _ _

/-- C4. Stop by HTTP, as the header comment states it: in every run in which a
`/stop` request has been dispatched and the signal goroutine has received no
interrupt, the server goroutine returns a non-nil error wrapping the error of
`ListenAndServe`; the signal goroutine can only be in its `ctx.Done()` case after
that error has cancelled the context, and returns `ctx.Err()`; the program runs to
completion, and then `g.Wait()` has returned the server goroutine's error; when no
listener fault has occurred the server has been closed and that error is
"server end, err = [http: Server closed]". -/
theorem C4_stop_by_http (es : List Event) (s : State) (hr : run init es = some s)
    (hstop : Event.stopReq ∈ es) (hno : ¬ tookInterrupt s) :
    ((s.srv = .exited ∨ s.srv = .done) →
      ∃ e, s.err = some e ∧ s.srvRet = some (.serverEnd e)) ∧
    ((s.sig = .ctxBranch ∨ s.sig = .exited ∨ s.sig = .done) →
      s.group.ctxDone = true ∧ s.srv = .done ∧ s.group.err = s.srvRet) ∧
    ((s.sig = .exited ∨ s.sig = .done) → s.sigRet = some .ctxCanceled) ∧
    Completes s (fun t => t.srv = .done ∧ t.sig = .done ∧
      (∃ e, t.err = some e ∧ t.srvRet = some (.serverEnd e)) ∧
      t.sigRet = some .ctxCanceled ∧ t.waitResult = t.srvRet ∧
      ((∀ m, Event.fault m ∉ es) →
        t.inShutdown = true ∧ t.waitResult = some (.serverEnd .serverClosed))) ∧
    (GoError.serverEnd .serverClosed).text = "server end, err = [http: Server closed]" := by
  have hi := inv_reach hr
  have h1 : ∀ t, Inv t → ¬ tookInterrupt t → (t.srv = .exited ∨ t.srv = .done) →
      ∃ e, t.err = some e ∧ t.srvRet = some (.serverEnd e) := by
    intro t ht hnt hsrv
    obtain ⟨e, he, hv⟩ := ht.b.srvVal hsrv
    rcases hv with hv | hv
    · exact absurd (sent_took (ht.b.srvNil hsrv hv)) hnt
    · exact ⟨e, he, hv⟩
  have h3 : ∀ t, Inv t → ¬ tookInterrupt t → (t.sig = .exited ∨ t.sig = .done) →
      t.sigRet = some .ctxCanceled := by
    intro t ht hnt hsig
    rcases ht.a.sigVal hsig with h | h
    · exact h
    · exact absurd (Or.inr (Or.inr (Or.inr (Or.inr ⟨hsig, h⟩)))) hnt
  have h2 : ∀ t, Inv t → ¬ tookInterrupt t →
      (t.sig = .ctxBranch ∨ t.sig = .exited ∨ t.sig = .done) →
      t.group.ctxDone = true ∧ t.srv = .done ∧ t.group.err = t.srvRet := by
    intro t ht hnt hsig
    have htc : tookCtx t := by
      rcases hsig with h | h
      · exact Or.inl h
      · exact Or.inr ⟨h, h3 t ht hnt h⟩
    have hc := ht.d.ctxTaken htc
    refine ⟨hc, ?_⟩
    rcases ht.d.errFrom with h | h | h
    · exact absurd h (ht.d.ctxIff.1 hc)
    · exact h
    · exact absurd (Or.inr (Or.inr (Or.inr (Or.inr ⟨Or.inr h.1, h.2.1⟩)))) hnt
  refine ⟨h1 s hi hno, h2 s hi hno, h3 s hi hno, completes_of hi ?_ ?_, by decide⟩
  · intro fs t _ hrun hq
    have hst := ((stopTrace_reach (reach_append hr hrun)).2.1
      (List.mem_append_left fs hstop)).1
    apply quiescent_ended (inv_run hi hrun) hq
    rcases hst with h | h
    · exact Or.inr (Or.inr (Or.inl h))
    · exact Or.inr (Or.inl h)
  · intro fs t hfs hrun hend
    have ht := inv_run hi hrun
    have hnt : ¬ tookInterrupt t := fun h => hno ((took_run hi hfs hrun).1 h)
    obtain ⟨hs1, hs2, _, hw⟩ := ht.d.mainEnded hend
    obtain ⟨e, he, hv⟩ := h1 t ht hnt (Or.inr hs1)
    have hwr : t.waitResult = t.srvRet := by
      rw [hw, (h2 t ht hnt (Or.inr (Or.inr hs2))).2.2]
    refine ⟨hs1, hs2, ⟨e, he, hv⟩, h3 t ht hnt (Or.inr hs2), hwr, ?_⟩
    intro hnf
    have hnf' : ∀ m, Event.fault m ∉ es ++ fs := fun m hm => by
      rcases List.mem_append.1 hm with h | h
      · exact hnf m h
      · exact (prog_not_env hfs).2.1 m h
    rcases err_of_no_fault (reach_append hr hrun) hnf' with h | h
    · rw [h] at he; cases he
    · rw [h] at he
      cases he
      exact ⟨ht.b.errClosed h, by rw [hwr, hv]⟩

/-- C5 (counterexample). The signal goroutine takes its interrupt branch while the
server is serving and `/stop` is never requested, but the accept loop fails before
the stop marker is sent: the server goroutine returns the error
"server end, err = [accept]" and `g.Wait()` returns that error, not "signal stop". -/
theorem C5_fault_after_interrupt :
    (run init [.listen, .notify, .park, .sigint, .fault "accept", .poll, .srvDone,
        .sendStop, .sigClose, .closeStop, .sigStop, .sigDone, .wait]).map
        (fun s => (s.srvRet, s.sigRet, s.main, s.waitResult)) =
      some (some (.serverEnd (.fault "accept")), some .signalStop, .ended,
        some (.serverEnd (.fault "accept"))) ∧
    (run init [.listen, .notify, .park, .sigint]).map
        (fun s => (s.srv, s.sig, s.handlers)) = some (.serving, .atSend, 0) ∧
    (GoError.serverEnd (.fault "accept")).text = "server end, err = [accept]" := by
  refine ⟨rfl, rfl, by decide⟩

/-- C5 (amended). Stop by signal: in every run without `/stop` request and without
listener fault in which the signal goroutine has taken its interrupt branch, the
server is only closed after the stop marker has been sent, the server goroutine
returns nil, the signal goroutine returns the error "signal stop", and the
program runs to completion with `g.Wait()` returning exactly that error. -/
theorem C5_stop_by_signal (es : List Event) (s : State) (hr : run init es = some s)
    (hns : Event.stopReq ∉ es) (hnf : ∀ m, Event.fault m ∉ es) (htook : tookInterrupt s) :
    (s.inShutdown = true → sentMarker s) ∧
    ((s.srv = .exited ∨ s.srv = .done) → s.srvRet = none) ∧
    ((s.sig = .exited ∨ s.sig = .done) → s.sigRet = some .signalStop) ∧
    Completes s (fun t => t.srv = .done ∧ t.sig = .done ∧ t.srvRet = none ∧
      t.sigRet = some .signalStop ∧ t.waitResult = some .signalStop) ∧
    GoError.signalStop.text = "signal stop" := by
  have hi := inv_reach hr
  have hq := quiet_reach hr (quiet_of_not_mem hns hnf)
  have h3 : ∀ t, Inv t → Quiet t → (t.sig = .exited ∨ t.sig = .done) →
      t.sigRet = some .signalStop := by
    intro t ht hqt hsig
    rcases ht.a.sigVal hsig with h | h
    · exact absurd (Or.inr ⟨hsig, h⟩) hqt.noCtx
    · exact h
  refine ⟨fun h => sigClosed_sent (hq.shutBySig h), hq.srvClean, h3 s hi hq,
    completes_of hi ?_ ?_, rfl⟩
  · intro fs t hfs hrun hqs
    have htk := (took_run hi hfs hrun).2 htook
    exact quiescent_ended (inv_run hi hrun) hqs (Or.inr (Or.inr (Or.inr (by
      intro hp
      simp [tookInterrupt, hp] at htk))))
  · intro fs t hfs hrun hend
    have ht := inv_run hi hrun
    have hqt : Quiet t := quiet_reach (reach_append hr hrun) (quiet_of_not_mem
      (fun h => by
        rcases List.mem_append.1 h with h | h
        · exact hns h
        · exact (prog_not_env hfs).1 h)
      (fun m h => by
        rcases List.mem_append.1 h with h | h
        · exact hnf m h
        · exact (prog_not_env hfs).2.1 m h))
    obtain ⟨hs1, hs2, _, hw⟩ := ht.d.mainEnded hend
    refine ⟨hs1, hs2, hqt.srvClean (Or.inr hs1), h3 t ht hqt (Or.inr hs2), ?_⟩
    rw [hw]
    rcases ht.d.errFrom with h | h | h
    · exact absurd h (ht.d.ctxIff.1 (ht.d.sigDoneErr hs2))
    · have := ht.d.ctxIff.1 (ht.d.sigDoneErr hs2)
      rw [h.2, hqt.srvClean (Or.inr hs1)] at this
      exact absurd rfl this
    · exact h.2.2

/-- C6 (counterexample). The bind fails, then the interrupt arrives before the server
goroutine polls `stop`: the server goroutine returns nil although `ListenAndServe`
failed for a reason of its own, and `g.Wait()` returns "signal stop". -/
theorem C6_fault_masked_by_signal :
    (run init [.fault "listen tcp :8080: bind: address already in use", .notify, .park,
        .sigint, .sendStop, .poll, .srvDone, .sigClose, .closeStop, .sigStop, .sigDone,
        .wait]).map (fun s => (s.err, s.srvRet, s.main, s.waitResult)) =
      some (some (.fault "listen tcp :8080: bind: address already in use"), none, .ended,
        some .signalStop) := by
  rfl

/-- C6 (amended). Server fault: in every run in which `ListenAndServe` has failed
with an error `m` of its own and the signal goroutine has not taken its interrupt
branch, the server goroutine returns the non-nil error wrapping `m`, and the
program runs to completion with `g.Wait()` returning that error. -/
theorem C6_server_fault (es : List Event) (s : State) (m : String)
    (hr : run init es = some s) (herr : s.err = some (.fault m)) (hno : ¬ tookInterrupt s) :
    ((s.srv = .exited ∨ s.srv = .done) → s.srvRet = some (.serverEnd (.fault m))) ∧
    Completes s (fun t => t.srv = .done ∧ t.sig = .done ∧
      t.srvRet = some (.serverEnd (.fault m)) ∧
      t.waitResult = some (.serverEnd (.fault m))) ∧
    (GoError.serverEnd (.fault m)).text = "server end, err = [" ++ m ++ "]" := by
  have hi := inv_reach hr
  have h1 : ∀ t, Inv t → t.err = some (.fault m) → ¬ tookInterrupt t →
      (t.srv = .exited ∨ t.srv = .done) → t.srvRet = some (.serverEnd (.fault m)) := by
    intro t ht hte hnt hsrv
    obtain ⟨e, he, hv⟩ := ht.b.srvVal hsrv
    rw [hte] at he
    cases he
    rcases hv with hv | hv
    · exact absurd (sent_took (ht.b.srvNil hsrv hv)) hnt
    · exact hv
  refine ⟨h1 s hi herr hno, completes_of hi ?_ ?_, rfl⟩
  · intro fs t _ hrun hq
    have ht := inv_run hi hrun
    have hte := err_run hi herr hrun
    exact quiescent_ended ht hq (Or.inl (by
      intro hsrv
      have := ht.b.errNone (Or.inr hsrv)
      rw [hte] at this
      cases this))
  · intro fs t hfs hrun hend
    have ht := inv_run hi hrun
    have hte := err_run hi herr hrun
    have hnt : ¬ tookInterrupt t := fun h => hno ((took_run hi hfs hrun).1 h)
    obtain ⟨hs1, hs2, _, hw⟩ := ht.d.mainEnded hend
    refine ⟨hs1, hs2, h1 t ht hte hnt (Or.inr hs1), ?_⟩
    rw [hw]
    rcases ht.d.errFrom with h | h | h
    · exact absurd h (ht.d.ctxIff.1 (ht.d.sigDoneErr hs2))
    · rw [h.2, h1 t ht hte hnt (Or.inr hs1)]
    · exact absurd (Or.inr (Or.inr (Or.inr (Or.inr ⟨Or.inr h.1, h.2.1⟩)))) hnt

/-- C7 (failing run). After a stop by HTTP the signal goroutine leaves through its
`ctx.Done()` case without `signal.Stop(c)`: it has returned and `c` is still
registered, whereas the interrupt case releases the registration. -/
theorem C7_ctx_branch_leaks_subscription :
    (run init [.listen, .notify, .park, .stopReq, .stopClose, .srvReturn, .poll, .srvDone,
        .ctxReturn, .sigDone, .wait]).map (fun s => (s.sig, s.sigRet, s.registered)) =
      some (.done, some .ctxCanceled, true) ∧
    (run init [.listen, .notify, .park, .sigint, .sendStop, .sigClose, .closeStop,
        .sigStop, .sigDone]).map (fun s => (s.sig, s.sigRet, s.registered)) =
      some (.done, some .signalStop, false) := by
  exact ⟨rfl, rfl⟩

/-- C8. Shutdown Trigger is idempotent and never panics or blocks: in every state
the program reaches, no goroutine has panicked; the listener has gone from open to
closed at most once, exactly once when it is closed, it is not open after any
`server.Close()`, and it has been closed exactly once as soon as a `/stop` handler
has called `server.Close()`; a close of a closed listener changes neither the
listener nor the count; the send on `stop` finds the channel open with room, and
`close(stop)` finds it open. -/
theorem C8_trigger_idempotent (es : List Event) (s : State) (hr : run init es = some s) :
    s.panicked = false ∧ s.closeCount ≤ 1 ∧
    (s.closeCount = 1 ↔ s.listener = .closed) ∧
    (s.inShutdown = true → s.listener ≠ .opened) ∧
    (Event.stopClose ∈ es → s.listener = .closed ∧ s.closeCount = 1) ∧
    (s.listener = .closed →
      (serverClose s).listener = .closed ∧ (serverClose s).closeCount = s.closeCount) ∧
    (s.sig = .atSend → s.stop.send = .sent { s.stop with len := 1 }) ∧
    (s.sig = .atCloseStop → s.stop.close = some { s.stop with closed := true }) := by
  have hi := inv_reach hr
  have hcnt := hi.c.lisCount
  have hopen : ∀ {sig : SigPc}, s.sig = sig → ¬ closedMarker { s with sig := sig } →
      s.stop.closed = false := by
    intro sig hsig hnc
    cases hcl : s.stop.closed
    · rfl
    · have := hi.a.stopClosed.1 hcl
      simp only [closedMarker] at this hnc
      rw [hsig] at this
      exact absurd this hnc
  refine ⟨hi.a.noPanic, ?_, ?_, ?_, ?_, ?_, ?_, ?_⟩
  · rw [hcnt]; split_ifs <;> omega
  · rw [hcnt]; split_ifs with h <;> simp [h]
  · intro hsh h
    have := (hi.c.lisOpen.1 h).2
    rw [hsh] at this
    cases this
  · intro hmem
    obtain ⟨hsh, hun⟩ := (stopTrace_reach hr).2.2 hmem
    have hno : s.listener ≠ .opened := fun h => by
      have := (hi.c.lisOpen.1 h).2
      rw [hsh] at this
      cases this
    have hcl : s.listener = .closed := by
      cases h : s.listener
      · exact absurd h hun
      · exact absurd h hno
      · rfl
    exact ⟨hcl, by rw [hcnt, if_pos hcl]⟩
  · intro hcl
    simp [serverClose, hcl]
  · intro hsig
    have hc := hopen hsig (by simp [closedMarker])
    have hl : s.stop.len = 0 := hi.a.stopEmpty (by simp [sentMarker, hsig])
    simp [Chan.send, hc, hl, hi.a.stopCap]
  · intro hsig
    have hc := hopen hsig (by simp [closedMarker])
    simp [Chan.close, hc]

/-- Once a `/stop` request has been dispatched or the signal goroutine has received
the interrupt, the program runs to completion: it can only come to rest after
`g.Wait()` has returned, it gets there within `rank` steps of its own, `g.Wait()`
has then returned once and both goroutines have returned; the send on `stop` never
blocks, and the signal goroutine is not left in its `select` once an error has
cancelled the context. -/
theorem completes_after_stop (es : List Event) (s : State) (hr : run init es = some s)
    (hstop : Event.stopReq ∈ es ∨ tookInterrupt s) :
    Completes s (fun t => t.srv = .done ∧ t.sig = .done ∧ t.waitReturns = 1) ∧
    s.waitReturns ≤ 1 ∧
    (s.sig = .atSend → s.main = .waiting → (step s .sendStop).isSome = true) ∧
    (s.group.ctxDone = true → s.sig ≠ .parked) ∧
    (s.srv = .done → s.srvRet ≠ none → s.sig ≠ .parked) := by
  have hi := inv_reach hr
  refine ⟨completes_of hi ?_ ?_, ?_, ?_, hi.d.notParked,
    fun h1 h2 => hi.d.notParked (hi.d.srvDoneErr h1 h2)⟩
  · intro fs t hfs hrun hq
    apply quiescent_ended (inv_run hi hrun) hq
    rcases hstop with h | h
    · rcases ((stopTrace_reach (reach_append hr hrun)).2.1
        (List.mem_append_left fs h)).1 with h' | h'
      · exact Or.inr (Or.inr (Or.inl h'))
      · exact Or.inr (Or.inl h')
    · have htk := (took_run hi hfs hrun).2 h
      refine Or.inr (Or.inr (Or.inr ?_))
      intro hp
      simp [tookInterrupt, hp] at htk
  · intro fs t _ hrun hend
    obtain ⟨h1, h2, h3, _⟩ := (inv_run hi hrun).d.mainEnded hend
    exact ⟨h1, h2, h3⟩
  · cases hm : s.main
    · rw [hi.d.mainWaiting hm]; omega
    · rw [(hi.d.mainEnded hm).2.2.1]
  · intro hsig hm
    have hc : s.stop.closed = false := by
      cases hcl : s.stop.closed
      · rfl
      · have := hi.a.stopClosed.1 hcl
        simp [closedMarker, hsig] at this
    have hl : s.stop.len = 0 := hi.a.stopEmpty (by simp [sentMarker, hsig])
    rw [step_eq_fire hi.a.noPanic hm]
    simp [fire, hsig, Chan.send, hc, hl, hi.a.stopCap]

/-- C9 (failing run). A stop via signal that arrives after `signal.Notify` and
before the signal goroutine blocks in its `select` is dropped by the unbuffered
channel `c`: the stop event has occurred, yet the program comes to rest with the
server still serving, the signal goroutine blocked in its `select` and `main`
blocked in `g.Wait()`; no step of the program is enabled. -/
theorem C9_dropped_signal_blocks :
    Event.sigint ∈ [Event.listen, .notify, .sigint, .park] ∧
    run init [.listen, .notify, .sigint, .park] =
      some (reached [.listen, .notify, .sigint, .park]) ∧
    quiescent (reached [.listen, .notify, .sigint, .park]) ∧
    (reached [.listen, .notify, .sigint, .park]).main = .waiting ∧
    (reached [.listen, .notify, .sigint, .park]).srv = .serving ∧
    (reached [.listen, .notify, .sigint, .park]).sig = .parked ∧
    ¬ tookInterrupt (reached [.listen, .notify, .sigint, .park]) := by
  refine ⟨by decide, rfl, by decide, rfl, rfl, rfl, by decide⟩

/-- C10 (failing run). The channel `c` is made without buffer, so an interrupt
delivered after `signal.Notify` and before the goroutine blocks in its `select` is
dropped: the state is the one without the interrupt, and the goroutine then blocks
in the `select` without having received it. -/
theorem C10_unbuffered_signal_dropped :
    sigChanCap = 0 ∧
    run init [.notify, .sigint] = run init [.notify] ∧
    (run init [.notify, .sigint, .park]).map (fun s => (s.sig, s.sigBuf, s.registered)) =
      some (.parked, 0, true) := by
  exact ⟨rfl, rfl, rfl⟩

/-! ## Witnesses: the theorems at concrete runs -/

/-- C1 at the run where the interrupt closes a serving server. -/
theorem C1_signal_close_clean_witness :
    run init signalRun = some (reached signalRun) ∧ firstCloser signalRun = some .signal ∧
      (reached signalRun).err = some .serverClosed ∧ (reached signalRun).srv = .done ∧
      (reached signalRun).srvRet = none :=
  have h := ((C1_signal_close_clean signalRun (reached signalRun) rfl rfl).2.2.2
    [] (reached signalRun) (by simp) rfl).2.2 rfl
  ⟨rfl, rfl, rfl, h.1, h.2 rfl⟩

/-- C3 at the run where the server's error is reported before "signal stop". -/
theorem C3_join_result_witness :
    run init faultSignalRun = some (reached faultSignalRun) ∧
      (reached faultSignalRun).main = .ended ∧
      reports faultSignalRun (reached faultSignalRun) =
        [some (.serverEnd (.fault "bind")), some .signalStop] ∧
      (reached faultSignalRun).waitResult = some (.serverEnd (.fault "bind")) :=
  ⟨rfl, rfl, rfl,
    ((C3_join_result none none faultSignalRun (reached faultSignalRun)
      rfl).2.2.2.2.2.2.2.2 rfl).2.2.2.1.trans rfl⟩

/-- C4 at the run of a stop by HTTP. -/
theorem C4_stop_by_http_witness :
    run init httpRun = some (reached httpRun) ∧ Event.stopReq ∈ httpRun ∧
      ¬ tookInterrupt (reached httpRun) ∧ (reached httpRun).inShutdown = true ∧
      (reached httpRun).waitResult = some (.serverEnd .serverClosed) :=
  have h := ((C4_stop_by_http httpRun (reached httpRun) rfl (by decide)
    (by decide)).2.2.2.1.2 [] (reached httpRun) (by simp) rfl).2.2 rfl
  ⟨rfl, by decide, by decide, h.2.2.2.2.2 (fun m => by simp [httpRun])⟩

/-- C5 at the run of a stop by signal. -/
theorem C5_stop_by_signal_witness :
    run init signalRun = some (reached signalRun) ∧ Event.stopReq ∉ signalRun ∧
      tookInterrupt (reached signalRun) ∧
      (reached signalRun).main = .ended ∧ (reached signalRun).srvRet = none ∧
      (reached signalRun).waitResult = some .signalStop :=
  have h := ((C5_stop_by_signal signalRun (reached signalRun) rfl (by decide)
    (fun m => by simp [signalRun]) (by decide)).2.2.2.1.2 [] (reached signalRun)
      (by simp) rfl).2.2 rfl
  ⟨rfl, by decide, by decide, rfl, h.2.2.1, h.2.2.2.2⟩

/-- C6 at the run where the bind fails and no interrupt arrives. -/
theorem C6_server_fault_witness :
    run init faultRun = some (reached faultRun) ∧
      (reached faultRun).err = some (.fault "bind") ∧ ¬ tookInterrupt (reached faultRun) ∧
      (reached faultRun).waitResult = some (.serverEnd (.fault "bind")) :=
  have h := ((C6_server_fault faultRun (reached faultRun) "bind" rfl rfl
    (by decide)).2.1.2 [] (reached faultRun) (by simp) rfl).2.2 rfl
  ⟨rfl, rfl, by decide, h.2.2.2⟩

/-- C8 at a run with two `/stop` requests and the interrupt. -/
theorem C8_trigger_idempotent_witness :
    run init doubleStopRun = some (reached doubleStopRun) ∧
      (reached doubleStopRun).panicked = false ∧ (reached doubleStopRun).listener = .closed ∧
      (reached doubleStopRun).closeCount = 1 :=
  have h := C8_trigger_idempotent doubleStopRun (reached doubleStopRun) rfl
  ⟨rfl, h.1, (h.2.2.2.2.1 (by decide)).1, (h.2.2.2.2.1 (by decide)).2⟩

/-- The program completes from the state in which a `/stop` request and the
interrupt have both just arrived. -/
theorem completes_after_stop_at_race :
    run init raceRun = some (reached raceRun) ∧ Event.stopReq ∈ raceRun ∧
      tookInterrupt (reached raceRun) ∧
      (∃ fs t, (∀ e ∈ fs, e ∈ progEvents) ∧ run (reached raceRun) fs = some t ∧
        t.main = .ended ∧ t.srv = .done ∧ t.sig = .done ∧ t.waitReturns = 1) :=
  ⟨rfl, by decide, by decide,
    (completes_after_stop raceRun (reached raceRun) rfl (Or.inr (by decide))).1.1⟩

end ErrGroupTest
